import Mathlib

set_option maxRecDepth 16000

/-!
# Verification of the AnalogSelector hysteresis filter

A shallow embedding of `AnalogSelectorFilter` from `src/AnalogSelector.h` of the
AnalogSelector Arduino library, together with proofs and refutations of the
specification's claims about it.

Modelling conventions (fixed for the whole development):

* `int` and `unsigned int` are 32 bits wide, as on the common 32-bit Arduino
  cores and host builds.  Unsigned arithmetic wraps modulo `2^32`
  (`u32`/`usub32`); conversion of an out-of-int-range unsigned value back to
  `int` reinterprets the two's-complement bit pattern (`toInt32`), the
  behaviour of every mainstream compiler.  `int` fields are carried as
  unbounded `Int`; theorems that need representability state it as a
  hypothesis.
* The `float deadzoneSize` field is carried as `Option ℚ`: `some q` is an
  ordered float with exact rational value `q` (every finite IEEE float is a
  rational, and for the clamp in `setDeadzone` an infinity behaves exactly
  like any out-of-range rational), `none` is NaN, for which every ordered
  comparison is false.  The single float expression
  `(float)MaxDeadzoneWidth * deadzoneSize` performs two IEEE binary32
  round-to-nearest-even roundings — one for the `unsigned`-to-`float`
  conversion and one for the product — and both are modelled faithfully by
  `fl32ND` (round to a 24-bit significand, ties to even).  The exponent range
  is left unbounded, which agrees with IEEE single precision everywhere this
  expression can land: the operands are a nonnegative value below `2^32` and
  a fraction in `[0, 1]`, so no overflow to infinity is possible, and any
  subnormal result lies far below 1 and truncates to 0 either way.
  Converting a NaN or an out-of-range float to `unsigned` is undefined
  behaviour in C++; the model returns 0 for NaN and no theorem's verdict
  relies on that branch.
* Class members are uninitialized before the C++ constructor body runs; the
  model starts them at zero.  The constructor's initial evaluation at
  `rangeMin` always matches segment 0 and overwrites all of them, so the
  placeholders are never observable in the theorems below.
-/

namespace AnalogSelector

/-- `2^32`, the modulus of 32-bit `unsigned int` arithmetic. -/
def U32 : Nat := 4294967296

/-- `2^31`, the first value that no longer fits in a 32-bit `int`. -/
def I32 : Nat := 2147483648

/-- Reduction of an unsigned value modulo the 32-bit modulus. -/
def u32 (n : Nat) : Nat := n % U32

/-- C 32-bit unsigned subtraction: wraps modulo `2^32` when `b > a`. -/
def usub32 (a b : Nat) : Nat := (u32 a + U32 - u32 b) % U32

/-- Reinterpretation of a 32-bit unsigned value as a signed `int`
(two's complement). -/
def toInt32 (n : Nat) : Int :=
  if u32 n < I32 then (u32 n : Int) else (u32 n : Int) - (U32 : Int)

/-- Reinterpretation of an `int` as a 32-bit unsigned value, as happens when an
`int` operand meets an `unsigned int` operand in C arithmetic. -/
def intToU32 (z : Int) : Nat := (z.emod (U32 : Int)).toNat

/-- The private `Direction` enum of the filter. -/
inductive Direction
  | Upper
  | Lower
deriving DecidableEq

/-- The member state of one `AnalogSelectorFilter` object. -/
structure FilterState where
  configChanged : Bool
  rangeMin : Int
  rangeMax : Int
  numPositions : Nat
  deadzoneSize : Option ℚ
  selectorWidth : Nat
  deadzoneWidth : Nat
  edgeLow : Int
  currentSelection : Nat
  edgeHigh : Int
deriving DecidableEq

/-- `AnalogSelectorFilter::setRange`: swaps reversed bounds, stores them and
marks the configuration dirty. -/
def setRange (s : FilterState) (rMin rMax : Int) : FilterState :=
  let lo := if rMax < rMin then rMax else rMin
  let hi := if rMax < rMin then rMin else rMax
  { s with rangeMin := lo, rangeMax := hi, configChanged := true }

/-- `AnalogSelectorFilter::setNumPositions`: coerces 0 to 1, stores the count
and marks the configuration dirty. -/
def setNumPositions (s : FilterState) (numPos : Nat) : FilterState :=
  let n := if numPos = 0 then 1 else numPos
  { s with numPositions := n, configChanged := true }

/-- `AnalogSelectorFilter::setDeadzone`: the two float comparisons
`dz < 0.0` / `dz > 1.0` are false for NaN (`none`), so NaN passes through
unchanged; the explicit NaN check in the source is commented out. -/
def setDeadzone (s : FilterState) (dz : Option ℚ) : FilterState :=
  let d : Option ℚ :=
    match dz with
    | some q => if q < 0 then some 0 else if 1 < q then some 1 else some q
    | none => none
  { s with deadzoneSize := d, configChanged := true }

/-- Fuel-driven binary logarithm: `log2F fuel n` is `⌊log₂ n⌋` whenever
`n ≤ fuel` (structural recursion on the fuel, so the kernel can evaluate it
on concrete inputs). -/
def log2F : Nat → Nat → Nat
  | 0, _ => 0
  | fuel + 1, n => if 2 ≤ n then log2F fuel (n / 2) + 1 else 0

/-- `⌊log₂ n⌋` for `n > 0` (and 0 at 0), with the number itself as fuel. -/
def nlog2 (n : Nat) : Nat := log2F n n

/-- Round the fraction `n / d` to the nearest integer, ties to even — the
IEEE-754 significand rounding rule. -/
def rne (n d : Int) : Int :=
  let t := n / d
  let r2 := 2 * (n - t * d)
  if r2 < d then t
  else if d < r2 then t + 1
  else if t % 2 = 0 then t else t + 1

/-- IEEE-754 binary32 round-to-nearest-even of the positive fraction `n / d`:
the unique exponent `e` with `2^e ≤ n/d < 2^(e+1)` is located via binary
logarithms, the value is scaled so that the significand lies in
`[2^23, 2^24)`, and the significand is rounded to an integer with ties to
even.  The result is returned as a numerator/denominator pair whose
denominator is a power of two.  The exponent range is unbounded (see the
module comment: no value this program feeds in can overflow, and subnormal
results truncate to 0 regardless).  Nonpositive numerators are returned
unrounded; the filter never produces them here. -/
def fl32ND (n : Int) (d : Nat) : Int × Nat :=
  if n ≤ 0 then (n, d)
  else
    let a := nlog2 n.toNat
    let b := nlog2 d
    let e : Int :=
      if (d : Int) * 2 ^ a ≤ n * 2 ^ b then (a : Int) - b else (a : Int) - b - 1
    if 23 ≤ e then
      let s := (e - 23).toNat
      (rne n ((d : Int) * 2 ^ s) * 2 ^ s, 1)
    else
      let k := (23 - e).toNat
      (rne (n * 2 ^ k) (d : Int), 2 ^ k)

/-- The assignment `deadzoneWidth = (float)MaxDeadzoneWidth * deadzoneSize`:
the `unsigned`-to-`float` conversion rounds `m` to the nearest binary32 value
(ties to even), the multiplication rounds the exact product with the stored
float `q` the same way, and the float-to-unsigned conversion truncates toward
zero (the value is nonnegative in every state reachable through
`setDeadzone`, so truncation is Euclidean division by the positive
denominator).  A NaN (or negative, or out-of-range) operand makes the
conversion undefined behaviour in C++; the model returns 0 for NaN and no
theorem relies on that branch. -/
def floatMulTrunc (m : Nat) (dz : Option ℚ) : Nat :=
  match dz with
  | some q =>
      let f := fl32ND (m : Int) 1
      let p := fl32ND (f.1 * q.num) (f.2 * q.den)
      (p.1 / (p.2 : Int)).toNat
  | none => 0

/-- `TotalRange` in `recalculateWidths`: `abs(rangeMax - rangeMin)` stored in
an `unsigned int`. -/
def totalRange (s : FilterState) : Nat := u32 (s.rangeMax - s.rangeMin).natAbs

/-- `AnalogSelectorFilter::recalculateWidths`.  All intermediate values are
32-bit unsigned, so both subtractions wrap modulo `2^32`
(`TotalRange - numPositions` genuinely wraps whenever the range is narrower
than the number of positions).  `SelectorRange` is declared `unsigned long`
in the source, but both subtraction operands are `unsigned int`, so the
subtraction itself is still 32-bit. -/
def recalculateWidths (s : FilterState) : FilterState :=
  let TotalRange : Nat := totalRange s
  let DeadzoneRange : Nat := usub32 TotalRange s.numPositions
  let NumDeadzones : Nat := usub32 s.numPositions 1
  let MaxDeadzoneWidth : Nat :=
    if NumDeadzones ≠ 0 then DeadzoneRange / NumDeadzones else 0
  let dzW : Nat := u32 (floatMulTrunc MaxDeadzoneWidth s.deadzoneSize)
  let SelectorRange : Nat := usub32 TotalRange (dzW * NumDeadzones)
  let sW : Nat := SelectorRange / s.numPositions
  { s with deadzoneWidth := dzW, selectorWidth := sW, configChanged := false }

/-- The clamp of a computed edge into `[rangeMin, rangeMax]` at the end of
`calculateEdge`. -/
def clampEdge (s : FilterState) (e : Int) : Int :=
  let e1 := if e < s.rangeMin then s.rangeMin else e
  if e1 > s.rangeMax then s.rangeMax else e1

/-- `AnalogSelectorFilter::calculateEdge`.  The sum mixes the `int` member
`rangeMin` with `unsigned int` products, so it is computed modulo `2^32` and
converted back to `int` before clamping.  The guard `if (i < 0) i = 0;` in
the source is dead code for an unsigned `i` and is not modelled.  Note the
upper branch compares `i` with `numPositions`, not with the last index
`numPositions - 1`. -/
def calculateEdge (s : FilterState) (i : Nat) (dir : Direction) : Int :=
  let raw : Nat :=
    match dir with
    | Direction.Upper =>
        intToU32 s.rangeMin + s.selectorWidth * (i + 1) +
          s.deadzoneWidth * (if i ≠ s.numPositions then i + 1 else i)
    | Direction.Lower =>
        intToU32 s.rangeMin + s.selectorWidth * i +
          s.deadzoneWidth * (if i ≠ 0 then i - 1 else i)
  clampEdge s (toInt32 raw)

/-- The clamp of the input reading at the top of `calculateSelection`. -/
def clampReading (s : FilterState) (pos : Int) : Int :=
  if pos < s.rangeMin then s.rangeMin
  else if pos > s.rangeMax then s.rangeMax
  else pos

/-- The state update performed when the scan in `calculateSelection` settles
on segment `i`. -/
def selectAt (s : FilterState) (i : Nat) : FilterState :=
  { s with currentSelection := i,
           edgeLow := calculateEdge s i Direction.Lower,
           edgeHigh := calculateEdge s i Direction.Upper }

/-- Body of the upward `for` loop of `calculateSelection`, recursing on the
number `rem = numPositions - i` of indices left to visit: skip every segment
whose upper edge is below `pos` and settle on the first other one; fall
through with the state unchanged when the loop ends without a match. -/
def upScanFrom (s : FilterState) (pos : Int) : Nat → Nat → FilterState
  | _, 0 => s
  | i, rem + 1 =>
      if pos > calculateEdge s i Direction.Upper then upScanFrom s pos (i + 1) rem
      else selectAt s i

/-- The upward `for` loop of `calculateSelection`, from index `i` (exclusive
upper bound `numPositions`). -/
def upScan (s : FilterState) (pos : Int) (i : Nat) : FilterState :=
  upScanFrom s pos i (s.numPositions - i)

/-- The downward `for` loop of `calculateSelection`: starting at index `i`,
skip every segment whose lower edge is above `pos` and settle on the first
other one; the loop ends (state unchanged) after index 0. -/
def downScan (s : FilterState) (pos : Int) : Nat → FilterState
  | 0 =>
      if pos < calculateEdge s 0 Direction.Lower then s else selectAt s 0
  | i + 1 =>
      if pos < calculateEdge s (i + 1) Direction.Lower then downScan s pos i
      else selectAt s (i + 1)

/-- `AnalogSelectorFilter::calculateSelection`: clamp the reading, then scan
upward (from 0 if non-relative, from the current selection if the reading
exceeds the buffered upper bound), scan downward if the reading is below the
buffered lower bound, or keep the state unchanged. -/
def calculateSelection (s : FilterState) (pos : Int) (relative : Bool) : FilterState :=
  let p := clampReading s pos
  if !relative || p > s.edgeHigh then
    upScan s p (if !relative then 0 else s.currentSelection)
  else if p < s.edgeLow then
    downScan s p s.currentSelection
  else s

/-- `AnalogSelectorFilter::getPosition`: recompute widths if the configuration
is dirty (forcing a non-relative scan) and run the selection, returning the
new selection together with the updated object state. -/
def getPosition (s : FilterState) (pos : Int) : Nat × FilterState :=
  let relative := !s.configChanged
  let s1 := if s.configChanged then recalculateWidths s else s
  let s2 := calculateSelection s1 pos relative
  (s2.currentSelection, s2)

/-- The `AnalogSelectorFilter` constructor: run the three setters, then prime
the selection state by evaluating at `rangeMin`.  The pre-constructor member
values are indeterminate in C++ and zero here; the initial evaluation always
lands on segment 0 and overwrites them. -/
def mkFilter (rMin rMax : Int) (numPos : Nat) (dz : Option ℚ) : FilterState :=
  let s0 : FilterState :=
    { configChanged := true, rangeMin := 0, rangeMax := 0, numPositions := 0,
      deadzoneSize := some 0, selectorWidth := 0, deadzoneWidth := 0,
      edgeLow := 0, currentSelection := 0, edgeHigh := 0 }
  let s1 := setRange s0 rMin rMax
  let s2 := setNumPositions s1 numPos
  let s3 := setDeadzone s2 dz
  (getPosition s3 rMin).2

/-- Results of feeding a list of readings through `getPosition`, in order. -/
def runReadings (s : FilterState) : List Int → List Nat
  | [] => []
  | pos :: rest =>
      let r := getPosition s pos
      r.1 :: runReadings r.2 rest

/-- The stored deadzone float is an ordered value inside `[0, 1]` (the
invariant `setDeadzone` is supposed to establish; false for NaN). -/
def dzLegal : Option ℚ → Prop
  | some q => 0 ≤ q ∧ q ≤ 1
  | none => False

instance (d : Option ℚ) : Decidable (dzLegal d) :=
  match d with
  | some q => inferInstanceAs (Decidable (0 ≤ q ∧ q ≤ 1))
  | none => inferInstanceAs (Decidable False)

/-- A configuration on which the C source has defined behaviour: the range
bounds are 32-bit `int` values whose difference does not overflow `int`
(`rangeMax - rangeMin` is computed in `int` in `recalculateWidths`), the
bounds are ordered as every path through `setRange` guarantees, there is at
least one position, the position count survives the `(int)` casts in the
scan loops of `calculateSelection`, and the stored deadzone is an ordered
float in `[0, 1]`. -/
def ValidConfig (s : FilterState) : Prop :=
  -(2147483648 : Int) ≤ s.rangeMin ∧ s.rangeMin ≤ s.rangeMax ∧
  s.rangeMax < 2147483648 ∧ s.rangeMax - s.rangeMin < 2147483648 ∧
  1 ≤ s.numPositions ∧ s.numPositions < 2147483648 ∧
  dzLegal s.deadzoneSize

instance (s : FilterState) : Decidable (ValidConfig s) :=
  inferInstanceAs (Decidable (_ ∧ _ ∧ _ ∧ _ ∧ _ ∧ _ ∧ _))

/-- The buffered widths agree with what `recalculateWidths` would compute from
the current configuration. -/
def WidthsOK (s : FilterState) : Prop :=
  s.selectorWidth = (recalculateWidths s).selectorWidth ∧
  s.deadzoneWidth = (recalculateWidths s).deadzoneWidth

instance (s : FilterState) : Decidable (WidthsOK s) :=
  inferInstanceAs (Decidable (_ ∧ _))

/-- A well-formed filter state: valid clean configuration, buffered widths up
to date, selection in range, and the sticky bounds equal to the edges of the
current selection.  `getPosition` establishes this from any dirty state whose
full scan matches, and preserves it. -/
def WF (s : FilterState) : Prop :=
  ValidConfig s ∧ s.configChanged = false ∧ WidthsOK s ∧
  s.currentSelection < s.numPositions ∧
  s.edgeLow = calculateEdge s s.currentSelection Direction.Lower ∧
  s.edgeHigh = calculateEdge s s.currentSelection Direction.Upper

instance (s : FilterState) : Decidable (WF s) :=
  inferInstanceAs (Decidable (_ ∧ _ ∧ _ ∧ _ ∧ _ ∧ _))

/-- Two states share all configuration and width fields (they can differ only
in the selection and the sticky bounds). -/
def SameConfig (s t : FilterState) : Prop :=
  t.configChanged = s.configChanged ∧ t.rangeMin = s.rangeMin ∧
  t.rangeMax = s.rangeMax ∧ t.numPositions = s.numPositions ∧
  t.deadzoneSize = s.deadzoneSize ∧ t.selectorWidth = s.selectorWidth ∧
  t.deadzoneWidth = s.deadzoneWidth

/-- Modelled from the spec, for the full-vs-relative refinement claim: "scan
segments from index 0 upward; the first segment whose upper edge is ≥ the
reading becomes the new `currentSelection`".  Returns the index found, or
`none` when every segment's upper edge is below the reading. -/
def specFullScanFrom (s : FilterState) (pos : Int) : Nat → Nat → Option Nat
  | _, 0 => none
  | i, rem + 1 =>
      if pos ≤ calculateEdge s i Direction.Upper then some i
      else specFullScanFrom s pos (i + 1) rem

/-- Modelled from the spec: the full bottom-up scan over all segments, on the
clamped reading. -/
def specFullScan (s : FilterState) (pos : Int) : Option Nat :=
  specFullScanFrom s (clampReading s pos) 0 s.numPositions

/-- The deadzone-width formula exactly as the specification words it, in
ordinary integer arithmetic: `floor(((totalRange - numPositions) / gapCount)
* deadzoneFraction)` with truncating integer division and exact rational
multiplication (`floor(k * q) = (k * q.num) ediv q.den`), and 0 when there
are no gaps. -/
def specDeadzoneWidth (T n : Int) (q : ℚ) : Int :=
  if n - 1 = 0 then 0 else ((T - n).tdiv (n - 1)) * q.num / (q.den : Int)

/-- The segment-width formula exactly as the specification words it:
`(totalRange - deadzoneWidth * gapCount) / numPositions` with truncating
integer division. -/
def specSelectorWidth (T n dzW : Int) : Int :=
  (T - dzW * (n - 1)).tdiv n

/-! ## Arithmetic helper lemmas -/

/-- Mixed int/unsigned addition followed by conversion back to `int` recovers
the mathematical sum whenever that sum fits in a 32-bit `int` (also for a
negative `rangeMin`: the wrap on reinterpretation and the wrap on conversion
back cancel). -/
theorem toInt32_intToU32_add (m : Int) (x : Nat)
    (h1 : -(2147483648 : Int) ≤ m) (h2 : m < 2147483648)
    (h3 : m + (x : Int) < 2147483648) :
    toInt32 (intToU32 m + x) = m + x := by
  simp only [toInt32, intToU32, u32, U32, I32, Nat.cast_ofNat]
  have h4 : (0 : Int) ≤ m.emod (4294967296 : Int) :=
    Int.emod_nonneg m (by norm_num)
  have h5 : m.emod (4294967296 : Int) < (4294967296 : Int) :=
    Int.emod_lt_of_pos m (by norm_num)
  have h7 : m.emod (4294967296 : Int) = m % (4294967296 : Int) := rfl
  split <;> push_cast <;> omega

theorem clampEdge_bounds (s : FilterState) (e : Int) (h : s.rangeMin ≤ s.rangeMax) :
    s.rangeMin ≤ clampEdge s e ∧ clampEdge s e ≤ s.rangeMax := by
  simp only [clampEdge]; split_ifs <;> omega

theorem clampEdge_of_mem (s : FilterState) (e : Int)
    (h1 : s.rangeMin ≤ e) (h2 : e ≤ s.rangeMax) : clampEdge s e = e := by
  simp only [clampEdge]; split_ifs <;> omega

theorem clampEdge_mono (s : FilterState) (e f : Int) (hef : e ≤ f) :
    clampEdge s e ≤ clampEdge s f := by
  simp only [clampEdge]; split_ifs <;> omega

theorem clampEdge_add_le (s : FilterState) (e : Int) (d : Int) (hd : 0 ≤ d) :
    clampEdge s (e + d) ≤ clampEdge s e + d := by
  simp only [clampEdge]; split_ifs <;> omega

theorem u32_eq (a : Nat) (ha : a < 4294967296) : u32 a = a := by
  simp only [u32, U32]; omega

theorem usub32_eq (a b : Nat) (hb : b ≤ a) (ha : a < 4294967296) :
    usub32 a b = a - b := by
  simp only [usub32, u32, U32]; omega

theorem totalRange_lt (s : FilterState) : totalRange s < 4294967296 := by
  simp only [totalRange, u32, U32]; omega

/-- With the range representable in `int`, `TotalRange` is the true width of
the range. -/
theorem totalRange_eq (s : FilterState) (h1 : s.rangeMin ≤ s.rangeMax)
    (h2 : s.rangeMax - s.rangeMin < 4294967296) :
    (totalRange s : Int) = s.rangeMax - s.rangeMin := by
  simp only [totalRange, u32, U32]
  omega

/-! ## The rounding model: characterisation and bounds -/

/-- `log2F` computes the binary logarithm whenever the fuel covers the
argument. -/
theorem log2F_spec (fuel : Nat) : ∀ n : Nat, n ≤ fuel → 0 < n →
    2 ^ log2F fuel n ≤ n ∧ n < 2 ^ (log2F fuel n + 1) := by
  induction fuel with
  | zero => intro n h1 h2; omega
  | succ f ih =>
      intro n h1 h2
      rw [log2F]
      split
      · have hd : n / 2 ≤ f := by omega
        have hp : 0 < n / 2 := by omega
        obtain ⟨ha, hb⟩ := ih (n / 2) hd hp
        constructor
        · rw [pow_succ]; omega
        · rw [pow_succ]; rw [pow_succ] at hb; omega
      · constructor <;> simp <;> omega

theorem nlog2_self_le (n : Nat) (h : 0 < n) : 2 ^ nlog2 n ≤ n :=
  (log2F_spec n n le_rfl h).1

theorem nlog2_lt_self (n : Nat) (h : 0 < n) : n < 2 ^ (nlog2 n + 1) :=
  (log2F_spec n n le_rfl h).2

theorem nlog2_le_23 (m : Nat) (h0 : 0 < m) (h24 : m < 16777216) :
    nlog2 m ≤ 23 := by
  by_contra hc
  have h1 : 2 ^ 24 ≤ 2 ^ nlog2 m := Nat.pow_le_pow_right (by norm_num) (by omega)
  have h2 := nlog2_self_le m h0
  omega

/-- Round-to-nearest never overshoots the value by more than half the step:
`rne (n/d) ≤ n/d + 1/2`, cleared of denominators. -/
theorem rne_le (n d : Int) (hd : 0 < d) : 2 * rne n d * d ≤ 2 * n + d := by
  rw [rne]
  have key := Int.ediv_add_emod n d
  have h0 := Int.emod_nonneg n (ne_of_gt hd)
  have h1 := Int.emod_lt_of_pos n hd
  split_ifs with ha hb hc
  · nlinarith
  · nlinarith
  · nlinarith
  · nlinarith

/-- Round-to-nearest of a fraction bounded by an integer stays bounded by
that integer. -/
theorem rne_div_le (n d B2 : Int) (hd : 0 < d) (hn : n ≤ B2 * d) :
    rne n d ≤ B2 := by
  have h := rne_le n d hd
  by_contra hc
  push_neg at hc
  have h2 : (B2 + 1) * d ≤ rne n d * d :=
    mul_le_mul_of_nonneg_right (by omega) (le_of_lt hd)
  nlinarith

/-- Rounding an integer to the nearest integer is the identity. -/
theorem rne_one (n : Int) : rne n 1 = n := by
  rw [rne]
  norm_num

theorem div_toNat_le (R : Int) (c B : Nat) (hc : 0 < c) (h : R ≤ (B : Int) * c) :
    (R / (c : Int)).toNat ≤ B := by
  have h1 : R / (c : Int) ≤ ((B : Int) * c) / c :=
    Int.ediv_le_ediv (by exact_mod_cast hc) h
  rw [Int.mul_ediv_cancel _ (by exact_mod_cast hc.ne')] at h1
  exact Int.toNat_le.mpr h1

/-- The truncated binary32 rounding of a fraction bounded by an integer below
`2^24` stays bounded by that integer: below `2^24` the representable values
include every integer, and round-to-nearest cannot cross the next
representable value above the input. -/
theorem fl32ND_trunc_le (n : Int) (d B : Nat) (hd : 0 < d)
    (hB : n ≤ (B : Int) * d) (h24 : B < 16777216) :
    ((fl32ND n d).1 / ((fl32ND n d).2 : Int)).toNat ≤ B := by
  have hdZ : (0 : Int) < (d : Int) := by exact_mod_cast hd
  simp only [fl32ND]
  split_ifs with h1 h2 h3 h4
  · exact div_toNat_le n d B hd hB
  · have hE : ((nlog2 n.toNat : Int) - (nlog2 d)) = 23 := by
      by_contra hne
      set a := nlog2 n.toNat with hadef
      set b := nlog2 d with hbdef
      have hab : b + 24 ≤ a := by omega
      have hpow : (2 : Int) ^ a = 2 ^ b * 2 ^ (a - b) := by
        rw [← pow_add]; congr 1; omega
      have h224 : (2 : Int) ^ 24 ≤ 2 ^ (a - b) :=
        pow_le_pow_right₀ (by norm_num) (by omega)
      have hb2 : (0 : Int) < 2 ^ b := by positivity
      have h3' : (d : Int) * 2 ^ (a - b) ≤ n := by
        have hc := h2
        rw [hpow] at hc
        have h4' : ((d : Int) * 2 ^ (a - b)) * 2 ^ b ≤ n * 2 ^ b := by
          calc ((d : Int) * 2 ^ (a - b)) * 2 ^ b
              = (d : Int) * (2 ^ b * 2 ^ (a - b)) := by ring
            _ ≤ n * 2 ^ b := hc
        exact le_of_mul_le_mul_right h4' hb2
      have hBig : (d : Int) * 2 ^ 24 ≤ n := by nlinarith
      have hSmall : n < (16777216 : Int) * d := by
        have hx : ((B : Int)) * d < 16777216 * d :=
          mul_lt_mul_of_pos_right (by exact_mod_cast h24) hdZ
        omega
      have h24' : (2 : Int) ^ 24 = 16777216 := by norm_num
      nlinarith
    have hs0 : ((nlog2 n.toNat : Int) - (nlog2 d) - 23).toNat = 0 := by omega
    rw [hs0]
    simp only [pow_zero, mul_one, Nat.cast_one, Int.ediv_one]
    have hR : rne n (d : Int) ≤ (B : Int) := rne_div_le n d B hdZ hB
    omega
  · apply div_toNat_le _ _ _ (by positivity)
    apply rne_div_le _ _ _ hdZ
    calc n * 2 ^ ((23:Int) - ((nlog2 n.toNat : Int) - (nlog2 d))).toNat
        ≤ ((B : Int) * d) * 2 ^ ((23:Int) - ((nlog2 n.toNat : Int) - (nlog2 d))).toNat :=
          mul_le_mul_of_nonneg_right hB (by positivity)
      _ = ((B : Int) * ((2 ^ ((23:Int) - ((nlog2 n.toNat : Int) - (nlog2 d))).toNat : Nat) : Int)) * d := by
          push_cast; ring
  · have hnpos : 0 < n := by omega
    have hNpos : 0 < n.toNat := by omega
    have hE : ((nlog2 n.toNat : Int) - (nlog2 d) - 1) = 23 := by
      by_contra hne
      set a := nlog2 n.toNat with hadef
      set b := nlog2 d with hbdef
      have hab : b + 25 ≤ a := by omega
      have hn1 : 2 ^ a ≤ n.toNat := nlog2_self_le n.toNat hNpos
      have hd1 : d < 2 ^ (b + 1) := nlog2_lt_self d hd
      have hpow : (2 : Nat) ^ a = 2 ^ (b + 1) * 2 ^ (a - (b + 1)) := by
        rw [← pow_add]; congr 1; omega
      have h224 : (2 : Nat) ^ 24 ≤ 2 ^ (a - (b + 1)) :=
        Nat.pow_le_pow_right (by norm_num) (by omega)
      have hBigN : d * 2 ^ 24 < n.toNat := by
        calc d * 2 ^ 24 < 2 ^ (b + 1) * 2 ^ (a - (b + 1)) :=
              Nat.mul_lt_mul_of_lt_of_le hd1 h224 (by positivity)
          _ = 2 ^ a := hpow.symm
          _ ≤ n.toNat := hn1
      have hBig : (d : Int) * 16777216 < n := by
        have hz := hBigN
        zify at hz
        rw [Int.toNat_of_nonneg (le_of_lt hnpos)] at hz
        have : ((2:Int) ^ 24) = 16777216 := by norm_num
        nlinarith
      have hSmall : n < (16777216 : Int) * d := by
        have hx : ((B : Int)) * d < 16777216 * d :=
          mul_lt_mul_of_pos_right (by exact_mod_cast h24) hdZ
        omega
      nlinarith
    have hs0 : ((nlog2 n.toNat : Int) - (nlog2 d) - 1 - 23).toNat = 0 := by omega
    rw [hs0]
    simp only [pow_zero, mul_one, Nat.cast_one, Int.ediv_one]
    have hR : rne n (d : Int) ≤ (B : Int) := rne_div_le n d B hdZ hB
    omega
  · apply div_toNat_le _ _ _ (by positivity)
    apply rne_div_le _ _ _ hdZ
    calc n * 2 ^ ((23:Int) - ((nlog2 n.toNat : Int) - (nlog2 d) - 1)).toNat
        ≤ ((B : Int) * d) * 2 ^ ((23:Int) - ((nlog2 n.toNat : Int) - (nlog2 d) - 1)).toNat :=
          mul_le_mul_of_nonneg_right hB (by positivity)
      _ = ((B : Int) * ((2 ^ ((23:Int) - ((nlog2 n.toNat : Int) - (nlog2 d) - 1)).toNat : Nat) : Int)) * d := by
          push_cast; ring

/-- An unsigned value below `2^24` converts to `float` exactly: the stored
pair is the value over a power-of-two denominator. -/
theorem fl32ND_int (m : Nat) (h0 : 0 < m) (h24 : m < 16777216) :
    ∃ c : Nat, 0 < c ∧ fl32ND (m : Int) 1 = ((m : Int) * c, c) := by
  have hm0 : ¬ ((m : Int) ≤ 0) := by exact_mod_cast Nat.not_le.mpr h0
  have htn : ((m : Int)).toNat = m := Int.toNat_natCast m
  have hb : nlog2 1 = 0 := rfl
  have hcond : ((1 : Nat) : Int) * 2 ^ (nlog2 ((m : Int)).toNat)
      ≤ (m : Int) * 2 ^ (nlog2 1) := by
    rw [htn, hb]
    simp only [Nat.cast_one, one_mul, pow_zero, mul_one]
    exact_mod_cast nlog2_self_le m h0
  have ha23 : nlog2 m ≤ 23 := nlog2_le_23 m h0 h24
  simp only [fl32ND]
  rw [if_neg hm0, if_pos hcond]
  rw [htn, hb]
  by_cases he : (23 : Int) ≤ (nlog2 m : Int) - (0 : Nat)
  · rw [if_pos he]
    have hs0 : ((nlog2 m : Int) - ((0:Nat):Int) - 23).toNat = 0 := by
      push_cast at he ⊢
      omega
    rw [hs0]
    refine ⟨1, one_pos, ?_⟩
    simp only [pow_zero, mul_one, Nat.cast_one, rne_one]
  · rw [if_neg he]
    refine ⟨2 ^ ((23 : Int) - ((nlog2 m : Int) - ((0:Nat):Int))).toNat, by positivity, ?_⟩
    simp only [Nat.cast_one, rne_one]
    refine Prod.ext ?_ rfl
    show (m : Int) * 2 ^ ((23:Int) - ((nlog2 m : Int) - ((0:Nat):Int))).toNat
        = (m : Int) * ((2 ^ ((23:Int) - ((nlog2 m : Int) - ((0:Nat):Int))).toNat : Nat) : Int)
    push_cast
    ring

/-- The doubly rounded, truncated product with a fraction of at most one
never exceeds the plain operand, provided the operand is below `2^24` (so
the int-to-float conversion is exact and the product rounds toward a
representable value no larger than the operand).  Beyond `2^24` this fails:
`(float)16777219` already rounds up to `16777220`. -/
theorem floatMulTrunc_le (m : Nat) (q : ℚ) (h24 : m < 16777216)
    (h1 : q ≤ 1) : floatMulTrunc m (some q) ≤ m := by
  rcases Nat.eq_zero_or_pos m with rfl | hm
  · simp [floatMulTrunc, fl32ND]
  · obtain ⟨c, hc, hfc⟩ := fl32ND_int m hm h24
    have hnum : q.num ≤ (q.den : Int) := by
      have h := Rat.le_def.mp h1
      simpa using h
    simp only [floatMulTrunc, hfc]
    apply fl32ND_trunc_le _ _ _ (Nat.mul_pos hc q.pos)
    · have hmc : (0 : Int) ≤ (m : Int) * c := by positivity
      calc ((m : Int) * c) * q.num ≤ ((m : Int) * c) * q.den :=
            mul_le_mul_of_nonneg_left hnum hmc
        _ = (m : Int) * ((c * q.den : Nat) : Int) := by push_cast; ring
    · exact h24

/-- Rounding an exact multiple of the denominator is exact. -/
theorem rne_exact (v d : Int) (hd : 0 < d) : rne (v * d) d = v := by
  simp only [rne, Int.mul_ediv_cancel _ (ne_of_gt hd), sub_self, mul_zero]
  rw [if_pos hd]

/-- A fraction whose value is an integer below `2^24` passes through the
binary32 rounding unchanged: every integer below `2^24` is exactly
representable. -/
theorem fl32ND_exact_div (n : Int) (d V : Nat) (hd : 0 < d)
    (hV : n = (V : Int) * d) (h24 : V < 16777216) :
    (fl32ND n d).1 / ((fl32ND n d).2 : Int) = (V : Int) := by
  have hdZ : (0 : Int) < (d : Int) := by exact_mod_cast hd
  rcases Nat.eq_zero_or_pos V with rfl | hVpos
  · have hn0 : n = 0 := by simpa using hV
    subst hn0
    simp [fl32ND, Int.zero_ediv]
  · have hnpos : 0 < n := by
      rw [hV]; positivity
    have hB : n ≤ (V : Int) * d := le_of_eq hV
    simp only [fl32ND]
    split_ifs with h1 h2 h3 h4
    · omega
    · have hE : ((nlog2 n.toNat : Int) - (nlog2 d)) = 23 := by
        by_contra hne
        set a := nlog2 n.toNat with hadef
        set b := nlog2 d with hbdef
        have hab : b + 24 ≤ a := by omega
        have hpow : (2 : Int) ^ a = 2 ^ b * 2 ^ (a - b) := by
          rw [← pow_add]; congr 1; omega
        have h224 : (2 : Int) ^ 24 ≤ 2 ^ (a - b) :=
          pow_le_pow_right₀ (by norm_num) (by omega)
        have hb2 : (0 : Int) < 2 ^ b := by positivity
        have h3' : (d : Int) * 2 ^ (a - b) ≤ n := by
          have hc := h2
          rw [hpow] at hc
          have h4' : ((d : Int) * 2 ^ (a - b)) * 2 ^ b ≤ n * 2 ^ b := by
            calc ((d : Int) * 2 ^ (a - b)) * 2 ^ b
                = (d : Int) * (2 ^ b * 2 ^ (a - b)) := by ring
              _ ≤ n * 2 ^ b := hc
          exact le_of_mul_le_mul_right h4' hb2
        have hBig : (d : Int) * 2 ^ 24 ≤ n := by nlinarith
        have hSmall : n < (16777216 : Int) * d := by
          have hx : ((V : Int)) * d < 16777216 * d :=
            mul_lt_mul_of_pos_right (by exact_mod_cast h24) hdZ
          omega
        have h24' : (2 : Int) ^ 24 = 16777216 := by norm_num
        nlinarith
      have hs0 : ((nlog2 n.toNat : Int) - (nlog2 d) - 23).toNat = 0 := by omega
      rw [hs0]
      simp only [pow_zero, mul_one, Nat.cast_one, Int.ediv_one]
      rw [hV, rne_exact _ _ hdZ]
    · set k := ((23:Int) - ((nlog2 n.toNat : Int) - (nlog2 d))).toNat with hkdef
      have hnk : n * 2 ^ k = ((V : Int) * ((2 ^ k : Nat) : Int)) * d := by
        rw [hV]; push_cast; ring
      rw [hnk, rne_exact _ _ hdZ]
      push_cast
      rw [Int.mul_ediv_cancel _ (by positivity)]
    · have hnpos' : 0 < n := hnpos
      have hNpos : 0 < n.toNat := by omega
      have hE : ((nlog2 n.toNat : Int) - (nlog2 d) - 1) = 23 := by
        by_contra hne
        set a := nlog2 n.toNat with hadef
        set b := nlog2 d with hbdef
        have hab : b + 25 ≤ a := by omega
        have hn1 : 2 ^ a ≤ n.toNat := nlog2_self_le n.toNat hNpos
        have hd1 : d < 2 ^ (b + 1) := nlog2_lt_self d hd
        have hpow : (2 : Nat) ^ a = 2 ^ (b + 1) * 2 ^ (a - (b + 1)) := by
          rw [← pow_add]; congr 1; omega
        have h224 : (2 : Nat) ^ 24 ≤ 2 ^ (a - (b + 1)) :=
          Nat.pow_le_pow_right (by norm_num) (by omega)
        have hBigN : d * 2 ^ 24 < n.toNat := by
          calc d * 2 ^ 24 < 2 ^ (b + 1) * 2 ^ (a - (b + 1)) :=
                Nat.mul_lt_mul_of_lt_of_le hd1 h224 (by positivity)
            _ = 2 ^ a := hpow.symm
            _ ≤ n.toNat := hn1
        have hBig : (d : Int) * 16777216 < n := by
          have hz := hBigN
          zify at hz
          rw [Int.toNat_of_nonneg (le_of_lt hnpos')] at hz
          have : ((2:Int) ^ 24) = 16777216 := by norm_num
          nlinarith
        have hSmall : n < (16777216 : Int) * d := by
          have hx : ((V : Int)) * d < 16777216 * d :=
            mul_lt_mul_of_pos_right (by exact_mod_cast h24) hdZ
          omega
        nlinarith
      have hs0 : ((nlog2 n.toNat : Int) - (nlog2 d) - 1 - 23).toNat = 0 := by omega
      rw [hs0]
      simp only [pow_zero, mul_one, Nat.cast_one, Int.ediv_one]
      rw [hV, rne_exact _ _ hdZ]
    · set k := ((23:Int) - ((nlog2 n.toNat : Int) - (nlog2 d) - 1)).toNat with hkdef
      have hnk : n * 2 ^ k = ((V : Int) * ((2 ^ k : Nat) : Int)) * d := by
        rw [hV]; push_cast; ring
      rw [hnk, rne_exact _ _ hdZ]
      push_cast
      rw [Int.mul_ediv_cancel _ (by positivity)]

/-- When the operand is below `2^24` and the fraction's denominator divides
it (so the exact product is an integer), the doubly rounded product equals
the exact-arithmetic floor of the specification. -/
theorem floatMulTrunc_exact (m : Nat) (q : ℚ) (h24 : m < 16777216)
    (h0 : 0 ≤ q) (h1 : q ≤ 1) (hdiv : q.den ∣ m) :
    ((floatMulTrunc m (some q) : Nat) : Int)
      = ((m : Int) * q.num) / (q.den : Int) := by
  have hnum0 : 0 ≤ q.num := Rat.num_nonneg.mpr h0
  have hnum : q.num ≤ (q.den : Int) := by
    have h := Rat.le_def.mp h1
    simpa using h
  obtain ⟨K, hK⟩ := hdiv
  have hdenZ : (0 : Int) < (q.den : Int) := by exact_mod_cast q.pos
  have hRHS : ((m : Int) * q.num) / (q.den : Int) = (K : Int) * q.num := by
    rw [hK]
    push_cast
    rw [mul_assoc, Int.mul_ediv_cancel_left _ (ne_of_gt hdenZ)]
  set VN : Nat := K * q.num.toNat with hVNdef
  have hVN : ((VN : Nat) : Int) = (K : Int) * q.num := by
    rw [hVNdef]
    push_cast
    rw [Int.toNat_of_nonneg hnum0]
  have hVN24 : VN < 16777216 := by
    have hq : q.num.toNat ≤ q.den := by omega
    have hle2 : VN ≤ K * q.den := Nat.mul_le_mul_left _ hq
    have hm : K * q.den = m := by rw [Nat.mul_comm]; omega
    omega
  rcases Nat.eq_zero_or_pos m with rfl | hm
  · have hK0 : K = 0 := by
      rcases Nat.eq_zero_or_pos K with h | h
      · exact h
      · exfalso; have := q.pos; nlinarith [hK]
    simp [floatMulTrunc, fl32ND, Int.zero_ediv, hRHS, hK0]
  · obtain ⟨c, hc, hfc⟩ := fl32ND_int m hm h24
    simp only [floatMulTrunc, hfc]
    have harg : (m : Int) * c * q.num
        = ((VN : Nat) : Int) * ((c * q.den : Nat) : Int) := by
      rw [hVN]
      push_cast
      rw [hK]
      push_cast
      ring
    rw [fl32ND_exact_div ((m : Int) * c * q.num) (c * q.den) VN
      (Nat.mul_pos hc q.pos) harg hVN24]
    rw [Int.toNat_natCast, hVN, hRHS]

/-! ## Width recalculation under a non-degenerate configuration -/

/-- When the range has at least one unit per position and the per-gap budget
is float-exact (below `2^24`), no unsigned subtraction in `recalculateWidths`
wraps and both widths are given by plain arithmetic over the rounded
product. -/
theorem recalc_widths_eq (s : FilterState) (q : ℚ)
    (hdz : s.deadzoneSize = some q) (h1 : q ≤ 1)
    (hn : 1 ≤ s.numPositions) (hn32 : s.numPositions < 4294967296)
    (hT : s.numPositions ≤ totalRange s)
    (h24 : (totalRange s - s.numPositions) / (s.numPositions - 1) < 16777216) :
    (recalculateWidths s).deadzoneWidth
      = floatMulTrunc ((totalRange s - s.numPositions) / (s.numPositions - 1))
          s.deadzoneSize ∧
    (recalculateWidths s).selectorWidth
      = (totalRange s
          - floatMulTrunc ((totalRange s - s.numPositions) / (s.numPositions - 1))
              s.deadzoneSize * (s.numPositions - 1)) / s.numPositions := by
  have hTlt := totalRange_lt s
  have hDle : floatMulTrunc ((totalRange s - s.numPositions) / (s.numPositions - 1))
      s.deadzoneSize ≤ (totalRange s - s.numPositions) / (s.numPositions - 1) := by
    rw [hdz]; exact floatMulTrunc_le _ _ h24 h1
  have hDle2 : floatMulTrunc ((totalRange s - s.numPositions) / (s.numPositions - 1))
      s.deadzoneSize * (s.numPositions - 1) ≤ totalRange s - s.numPositions :=
    le_trans (Nat.mul_le_mul_right _ hDle) (Nat.div_mul_le_self _ _)
  have hDlt : floatMulTrunc ((totalRange s - s.numPositions) / (s.numPositions - 1))
      s.deadzoneSize < 4294967296 :=
    lt_of_le_of_lt (le_trans hDle (Nat.div_le_self _ _)) (by omega)
  have hM : (if usub32 s.numPositions 1 ≠ 0
      then usub32 (totalRange s) s.numPositions / usub32 s.numPositions 1 else 0)
      = (totalRange s - s.numPositions) / (s.numPositions - 1) := by
    rw [usub32_eq _ _ hT hTlt, usub32_eq _ 1 hn (by omega)]
    split
    · rfl
    · rename_i hg
      have hz : s.numPositions - 1 = 0 := by omega
      rw [hz, Nat.div_zero]
  constructor
  · simp only [recalculateWidths]
    rw [hM, u32_eq _ hDlt]
  · simp only [recalculateWidths]
    rw [hM, u32_eq _ hDlt, usub32_eq _ 1 hn (by omega),
      usub32_eq _ _ (le_trans hDle2 (Nat.sub_le _ _)) hTlt]

/-- The recomputed widths respect the budget: all gaps fit in
`totalRange - numPositions` and all segments in what the gaps leave. -/
theorem recalc_widths_bounds (s : FilterState) (q : ℚ)
    (hdz : s.deadzoneSize = some q) (h1 : q ≤ 1)
    (hn : 1 ≤ s.numPositions) (hn32 : s.numPositions < 4294967296)
    (hT : s.numPositions ≤ totalRange s)
    (h24 : (totalRange s - s.numPositions) / (s.numPositions - 1) < 16777216) :
    (recalculateWidths s).deadzoneWidth * (s.numPositions - 1)
        ≤ totalRange s - s.numPositions ∧
    (recalculateWidths s).selectorWidth * s.numPositions
        ≤ totalRange s
          - (recalculateWidths s).deadzoneWidth * (s.numPositions - 1) := by
  obtain ⟨hd, hs⟩ := recalc_widths_eq s q hdz h1 hn hn32 hT h24
  constructor
  · rw [hd]
    exact le_trans
      (Nat.mul_le_mul_right _ (by rw [hdz]; exact floatMulTrunc_le _ _ h24 h1))
      (Nat.div_mul_le_self _ _)
  · rw [hs, hd]
    exact Nat.div_mul_le_self _ _

/-! ## Edge computation lemmas -/

theorem calculateEdge_upper_clamp (s : FilterState) (i : Nat)
    (hmin : -(2147483648 : Int) ≤ s.rangeMin) (hle : s.rangeMin ≤ s.rangeMax)
    (hmax : s.rangeMax < 2147483648) (hi : i ≠ s.numPositions)
    (hfit : s.rangeMin
        + ((s.selectorWidth * (i + 1) + s.deadzoneWidth * (i + 1) : Nat) : Int)
        < 2147483648) :
    calculateEdge s i Direction.Upper
      = clampEdge s (s.rangeMin
          + ((s.selectorWidth * (i + 1) + s.deadzoneWidth * (i + 1) : Nat) : Int)) := by
  simp only [calculateEdge, if_pos hi, Nat.add_assoc]
  rw [toInt32_intToU32_add _ _ hmin (by omega) hfit]

theorem calculateEdge_lower_clamp (s : FilterState) (i : Nat)
    (hmin : -(2147483648 : Int) ≤ s.rangeMin) (hle : s.rangeMin ≤ s.rangeMax)
    (hmax : s.rangeMax < 2147483648)
    (hfit : s.rangeMin
        + ((s.selectorWidth * i + s.deadzoneWidth * (i - 1) : Nat) : Int)
        < 2147483648) :
    calculateEdge s i Direction.Lower
      = clampEdge s (s.rangeMin
          + ((s.selectorWidth * i + s.deadzoneWidth * (i - 1) : Nat) : Int)) := by
  have hif : (if i ≠ 0 then i - 1 else i) = i - 1 := by split <;> omega
  simp only [calculateEdge, hif, Nat.add_assoc]
  rw [toInt32_intToU32_add _ _ hmin (by omega) hfit]

/-- Jointly: every edge payload up to the last lower edge and the
second-to-last upper edge stays within `totalRange`. -/
theorem widths_sum_le (s : FilterState) (hv : ValidConfig s) (hW : WidthsOK s)
    (hT : s.numPositions ≤ totalRange s)
    (h24 : (totalRange s - s.numPositions) / (s.numPositions - 1) < 16777216) :
    s.selectorWidth * (s.numPositions - 1)
      + s.deadzoneWidth * (s.numPositions - 1) ≤ totalRange s := by
  obtain ⟨hb1, hb2, hb3, hb4, hb5, hb6, hdleg⟩ := hv
  obtain ⟨hWs, hWd⟩ := hW
  rcases hq : s.deadzoneSize with _ | q
  · rw [hq] at hdleg; exact absurd hdleg (by simp [dzLegal])
  · have hleg : (0 : ℚ) ≤ q ∧ q ≤ 1 := by
      rw [hq] at hdleg; exact hdleg
    obtain ⟨hd, hs2⟩ := recalc_widths_bounds s q hq hleg.2 hb5 (by omega) hT h24
    rw [← hWd] at hd hs2
    rw [← hWs] at hs2
    have hmono : s.selectorWidth * (s.numPositions - 1)
        ≤ s.selectorWidth * s.numPositions :=
      Nat.mul_le_mul_left _ (by omega)
    omega

/-- Exact value of an upper edge at any index below the last one, for a valid
configuration with up-to-date widths and at least one unit per position: no
wrap, no clamp. -/
theorem calculateEdge_upper_exact (s : FilterState) (hv : ValidConfig s)
    (hW : WidthsOK s) (hT : s.numPositions ≤ totalRange s)
    (h24 : (totalRange s - s.numPositions) / (s.numPositions - 1) < 16777216)
    (i : Nat) (hi : i + 1 < s.numPositions) :
    calculateEdge s i Direction.Upper
      = s.rangeMin
        + ((s.selectorWidth * (i + 1) + s.deadzoneWidth * (i + 1) : Nat) : Int) := by
  have hsum := widths_sum_le s hv hW hT h24
  obtain ⟨hb1, hb2, hb3, hb4, hb5, hb6, hdleg⟩ := hv
  have hpay : s.selectorWidth * (i + 1) + s.deadzoneWidth * (i + 1)
      ≤ totalRange s := by
    have m1 : s.selectorWidth * (i + 1) ≤ s.selectorWidth * (s.numPositions - 1) :=
      Nat.mul_le_mul_left _ (by omega)
    have m2 : s.deadzoneWidth * (i + 1) ≤ s.deadzoneWidth * (s.numPositions - 1) :=
      Nat.mul_le_mul_left _ (by omega)
    omega
  have hTi : (totalRange s : Int) = s.rangeMax - s.rangeMin :=
    totalRange_eq s hb2 (by omega)
  have hfit : s.rangeMin
      + ((s.selectorWidth * (i + 1) + s.deadzoneWidth * (i + 1) : Nat) : Int)
      < 2147483648 := by
    have : ((s.selectorWidth * (i + 1) + s.deadzoneWidth * (i + 1) : Nat) : Int)
        ≤ (totalRange s : Int) := by exact_mod_cast hpay
    omega
  rw [calculateEdge_upper_clamp s i hb1 hb2 hb3 (by omega) hfit]
  apply clampEdge_of_mem
  · have : (0 : Int) ≤ ((s.selectorWidth * (i + 1) + s.deadzoneWidth * (i + 1) : Nat) : Int) := by positivity
    omega
  · have : ((s.selectorWidth * (i + 1) + s.deadzoneWidth * (i + 1) : Nat) : Int)
        ≤ (totalRange s : Int) := by exact_mod_cast hpay
    omega

theorem calculateEdge_lower_exact (s : FilterState) (hv : ValidConfig s)
    (hW : WidthsOK s) (hT : s.numPositions ≤ totalRange s)
    (h24 : (totalRange s - s.numPositions) / (s.numPositions - 1) < 16777216)
    (i : Nat) (hi : i < s.numPositions) :
    calculateEdge s i Direction.Lower
      = s.rangeMin
        + ((s.selectorWidth * i + s.deadzoneWidth * (i - 1) : Nat) : Int) := by
  have hsum := widths_sum_le s hv hW hT h24
  obtain ⟨hb1, hb2, hb3, hb4, hb5, hb6, hdleg⟩ := hv
  have hpay : s.selectorWidth * i + s.deadzoneWidth * (i - 1)
      ≤ totalRange s := by
    have m1 : s.selectorWidth * i ≤ s.selectorWidth * (s.numPositions - 1) :=
      Nat.mul_le_mul_left _ (by omega)
    have m2 : s.deadzoneWidth * (i - 1) ≤ s.deadzoneWidth * (s.numPositions - 1) :=
      Nat.mul_le_mul_left _ (by omega)
    omega
  have hTi : (totalRange s : Int) = s.rangeMax - s.rangeMin :=
    totalRange_eq s hb2 (by omega)
  have hfit : s.rangeMin
      + ((s.selectorWidth * i + s.deadzoneWidth * (i - 1) : Nat) : Int)
      < 2147483648 := by
    have : ((s.selectorWidth * i + s.deadzoneWidth * (i - 1) : Nat) : Int)
        ≤ (totalRange s : Int) := by exact_mod_cast hpay
    omega
  rw [calculateEdge_lower_clamp s i hb1 hb2 hb3 hfit]
  apply clampEdge_of_mem
  · have : (0 : Int) ≤ ((s.selectorWidth * i + s.deadzoneWidth * (i - 1) : Nat) : Int) := by positivity
    omega
  · have : ((s.selectorWidth * i + s.deadzoneWidth * (i - 1) : Nat) : Int)
        ≤ (totalRange s : Int) := by exact_mod_cast hpay
    omega

/-! ## Scan loop lemmas -/

/-- The upward loop settles exactly where the spec's first-match scan points,
and falls through unchanged when there is no match. -/
theorem upScanFrom_eq_spec (s : FilterState) (pos : Int) :
    ∀ rem i, upScanFrom s pos i rem
      = (match specFullScanFrom s pos i rem with
         | some k => selectAt s k
         | none => s) := by
  intro rem
  induction rem with
  | zero => intro i; rfl
  | succ r ih =>
      intro i
      by_cases h : pos ≤ calculateEdge s i Direction.Upper
      · simp only [upScanFrom, specFullScanFrom, if_pos h, if_neg (not_lt.mpr h)]
      · simp only [upScanFrom, specFullScanFrom, if_neg h, if_pos (lt_of_not_le h)]
        exact ih (i + 1)

theorem specFullScanFrom_some (s : FilterState) (pos : Int) :
    ∀ rem i k, specFullScanFrom s pos i rem = some k →
      i ≤ k ∧ k < i + rem ∧ pos ≤ calculateEdge s k Direction.Upper ∧
      ∀ j, i ≤ j → j < k → calculateEdge s j Direction.Upper < pos := by
  intro rem
  induction rem with
  | zero => intro i k h; exact absurd h (by simp [specFullScanFrom])
  | succ r ih =>
      intro i k h
      by_cases hc : pos ≤ calculateEdge s i Direction.Upper
      · simp only [specFullScanFrom, if_pos hc, Option.some.injEq] at h
        subst h
        exact ⟨le_refl _, by omega, hc, fun j h1 h2 => by omega⟩
      · simp only [specFullScanFrom, if_neg hc] at h
        obtain ⟨ha, hb, hcc, hd⟩ := ih (i + 1) k h
        refine ⟨by omega, by omega, hcc, fun j h1 h2 => ?_⟩
        rcases Nat.eq_or_lt_of_le h1 with rfl | hj
        · exact lt_of_not_le hc
        · exact hd j (by omega) h2

theorem specFullScanFrom_none (s : FilterState) (pos : Int) :
    ∀ rem i, specFullScanFrom s pos i rem = none →
      ∀ j, i ≤ j → j < i + rem → calculateEdge s j Direction.Upper < pos := by
  intro rem
  induction rem with
  | zero => intro i _ j h1 h2; omega
  | succ r ih =>
      intro i h j h1 h2
      by_cases hc : pos ≤ calculateEdge s i Direction.Upper
      · rw [specFullScanFrom, if_pos hc] at h
        exact Option.noConfusion h
      · simp only [specFullScanFrom, if_neg hc] at h
        rcases Nat.eq_or_lt_of_le h1 with rfl | hj
        · exact lt_of_not_le hc
        · exact ih (i + 1) h j (by omega) (by omega)

theorem specFullScanFrom_of_all_gt (s : FilterState) (pos : Int) :
    ∀ rem i, (∀ j, i ≤ j → j < i + rem → calculateEdge s j Direction.Upper < pos) →
      specFullScanFrom s pos i rem = none := by
  intro rem
  induction rem with
  | zero => intro i _; rfl
  | succ r ih =>
      intro i h
      have hc : ¬ pos ≤ calculateEdge s i Direction.Upper :=
        not_le.mpr (h i (le_refl _) (by omega))
      simp only [specFullScanFrom, if_neg hc]
      exact ih (i + 1) fun j h1 h2 => h j (by omega) (by omega)

theorem specFullScanFrom_head (s : FilterState) (pos : Int) (i rem : Nat)
    (hrem : 0 < rem) (h : pos ≤ calculateEdge s i Direction.Upper) :
    specFullScanFrom s pos i rem = some i := by
  cases rem with
  | zero => omega
  | succ r => simp only [specFullScanFrom, if_pos h]

/-- The downward loop either falls off the bottom with the state unchanged, or
settles on an index at most where it started. -/
theorem downScan_cases (s : FilterState) (pos : Int) :
    ∀ j, downScan s pos j = s ∨
      ∃ k, k ≤ j ∧ calculateEdge s k Direction.Lower ≤ pos ∧
        downScan s pos j = selectAt s k := by
  intro j
  induction j with
  | zero =>
      by_cases h : pos < calculateEdge s 0 Direction.Lower
      · left; simp only [downScan, if_pos h]
      · right; exact ⟨0, le_refl _, not_lt.mp h, by simp only [downScan, if_neg h]⟩
  | succ r ih =>
      by_cases h : pos < calculateEdge s (r + 1) Direction.Lower
      · rcases ih with h1 | ⟨k, h1, h2, h3⟩
        · left; simpa only [downScan, if_pos h]
        · right; exact ⟨k, by omega, h2, by simp only [downScan, if_pos h]; exact h3⟩
      · right
        exact ⟨r + 1, le_refl _, not_lt.mp h, by simp only [downScan, if_neg h]⟩

/-- While the reading stays at or above some lower edge `t`, the downward loop
never descends past `t`. -/
theorem downScan_ge (s : FilterState) (pos : Int) (t : Nat)
    (hL : calculateEdge s t Direction.Lower ≤ pos) :
    ∀ j, t ≤ j → t ≤ s.currentSelection →
      t ≤ (downScan s pos j).currentSelection := by
  intro j
  induction j with
  | zero =>
      intro h1 h2
      by_cases h : pos < calculateEdge s 0 Direction.Lower
      · simpa only [downScan, if_pos h]
      · simp only [downScan, if_neg h, selectAt]; omega
  | succ r ih =>
      intro h1 h2
      by_cases h : pos < calculateEdge s (r + 1) Direction.Lower
      · have ht : t ≤ r := by
          rcases Nat.eq_or_lt_of_le h1 with rfl | hj
          · exact absurd hL (not_le.mpr h)
          · omega
        simp only [downScan, if_pos h]
        exact ih ht h2
      · simp only [downScan, if_neg h, selectAt]
        omega

/-! ## Congruence and well-formedness lemmas -/

theorem selectAt_sameConfig (s : FilterState) (i : Nat) :
    SameConfig s (selectAt s i) :=
  ⟨rfl, rfl, rfl, rfl, rfl, rfl, rfl⟩

theorem sameConfig_refl (s : FilterState) : SameConfig s s :=
  ⟨rfl, rfl, rfl, rfl, rfl, rfl, rfl⟩

theorem calculateEdge_congr (s t : FilterState) (h : SameConfig s t)
    (i : Nat) (dir : Direction) : calculateEdge t i dir = calculateEdge s i dir := by
  obtain ⟨h1, h2, h3, h4, h5, h6, h7⟩ := h
  simp only [calculateEdge, clampEdge, h2, h3, h4, h6, h7]

theorem clampReading_congr (s t : FilterState) (h : SameConfig s t) (pos : Int) :
    clampReading t pos = clampReading s pos := by
  obtain ⟨h1, h2, h3, h4, h5, h6, h7⟩ := h
  simp only [clampReading, h2, h3]

/-- `recalculateWidths` reads only the four configuration fields. -/
theorem recalc_congr (s t : FilterState)
    (h2 : t.rangeMin = s.rangeMin) (h3 : t.rangeMax = s.rangeMax)
    (h4 : t.numPositions = s.numPositions) (h5 : t.deadzoneSize = s.deadzoneSize) :
    (recalculateWidths t).selectorWidth = (recalculateWidths s).selectorWidth ∧
    (recalculateWidths t).deadzoneWidth = (recalculateWidths s).deadzoneWidth := by
  refine ⟨?_, ?_⟩ <;> simp only [recalculateWidths, totalRange, h2, h3, h4, h5]

theorem validConfig_congr (s t : FilterState) (h : SameConfig s t)
    (hv : ValidConfig s) : ValidConfig t := by
  obtain ⟨h1, h2, h3, h4, h5, h6, h7⟩ := h
  obtain ⟨v1, v2, v3, v4, v5, v6, v7⟩ := hv
  exact ⟨by omega, by omega, by omega, by omega, by omega, by omega, h5 ▸ v7⟩

theorem widthsOK_congr (s t : FilterState) (h : SameConfig s t)
    (hW : WidthsOK s) : WidthsOK t := by
  obtain ⟨h1, h2, h3, h4, h5, h6, h7⟩ := h
  obtain ⟨w1, w2⟩ := hW
  obtain ⟨r1, r2⟩ := recalc_congr s t h2 h3 h4 h5
  exact ⟨by rw [h6, r1]; exact w1, by rw [h7, r2]; exact w2⟩

/-- Landing on an index below `numPositions` from a clean, valid state with
fresh widths produces a well-formed state. -/
theorem selectAt_WF (s : FilterState) (k : Nat) (hv : ValidConfig s)
    (hc : s.configChanged = false) (hW : WidthsOK s) (hk : k < s.numPositions) :
    WF (selectAt s k) := by
  have hsc := selectAt_sameConfig s k
  refine ⟨validConfig_congr s _ hsc hv, ?_, widthsOK_congr s _ hsc hW, ?_, ?_, ?_⟩
  · exact hsc.1.trans hc
  · show k < (selectAt s k).numPositions
    rw [hsc.2.2.2.1]; exact hk
  · show calculateEdge s k Direction.Lower
        = calculateEdge (selectAt s k) k Direction.Lower
    rw [calculateEdge_congr s _ hsc]
  · show calculateEdge s k Direction.Upper
        = calculateEdge (selectAt s k) k Direction.Upper
    rw [calculateEdge_congr s _ hsc]

/-! ## Evaluation lemmas -/

theorem getPosition_eq_dirty (s : FilterState) (pos : Int)
    (hd : s.configChanged = true) :
    getPosition s pos
      = ((upScan (recalculateWidths s)
            (clampReading (recalculateWidths s) pos) 0).currentSelection,
         upScan (recalculateWidths s)
            (clampReading (recalculateWidths s) pos) 0) := by
  simp only [getPosition, calculateSelection, hd, Bool.not_true, Bool.not_false,
    Bool.true_or, if_true, if_pos]

theorem getPosition_eq_clean (s : FilterState) (pos : Int)
    (hc : s.configChanged = false) :
    getPosition s pos
      = ((calculateSelection s pos true).currentSelection,
          calculateSelection s pos true) := by
  simp only [getPosition, hc, Bool.not_false, if_neg, Bool.false_eq_true,
    not_false_eq_true, if_false]

theorem upScan_result (s : FilterState) (pos : Int) (i : Nat) :
    upScan s pos i = s ∨
      ∃ k, i ≤ k ∧ k < s.numPositions ∧ upScan s pos i = selectAt s k := by
  rw [upScan, upScanFrom_eq_spec]
  cases heq : specFullScanFrom s pos i (s.numPositions - i) with
  | none => left; rfl
  | some k =>
      right
      obtain ⟨h1, h2, h3, h4⟩ := specFullScanFrom_some s pos _ _ _ heq
      exact ⟨k, h1, by omega, rfl⟩

theorem calculateSelection_result (s : FilterState) (pos : Int) (rel : Bool)
    (hsel : s.currentSelection < s.numPositions) :
    calculateSelection s pos rel = s ∨
      ∃ k, k < s.numPositions ∧ calculateSelection s pos rel = selectAt s k := by
  simp only [calculateSelection]
  split
  · rcases upScan_result s (clampReading s pos) _ with h | ⟨k, hk1, hk2, hk3⟩
    · left; exact h
    · right; exact ⟨k, hk2, hk3⟩
  · split
    · rcases downScan_cases s (clampReading s pos) s.currentSelection
        with h | ⟨k, hk1, hk2, hk3⟩
      · left; exact h
      · right; exact ⟨k, by omega, hk3⟩
    · left; rfl

theorem calculateSelection_WF (s : FilterState) (pos : Int) (rel : Bool)
    (hWF : WF s) : WF (calculateSelection s pos rel) := by
  obtain ⟨hv, hc, hW, hsel, hel, heh⟩ := hWF
  rcases calculateSelection_result s pos rel hsel with h | ⟨k, hk, hke⟩
  · rw [h]; exact ⟨hv, hc, hW, hsel, hel, heh⟩
  · rw [hke]; exact selectAt_WF s k hv hc hW hk

theorem calculateSelection_sameConfig (s : FilterState) (pos : Int) (rel : Bool)
    (hsel : s.currentSelection < s.numPositions) :
    SameConfig s (calculateSelection s pos rel) := by
  rcases calculateSelection_result s pos rel hsel with h | ⟨k, hk, hke⟩
  · rw [h]; exact sameConfig_refl s
  · rw [hke]; exact selectAt_sameConfig s k

theorem getPosition_WF (s : FilterState) (pos : Int) (hWF : WF s) :
    WF (getPosition s pos).2 ∧ SameConfig s (getPosition s pos).2 ∧
    (getPosition s pos).1 = (getPosition s pos).2.currentSelection := by
  rw [getPosition_eq_clean s pos hWF.2.1]
  exact ⟨calculateSelection_WF s pos true hWF,
    calculateSelection_sameConfig s pos true hWF.2.2.2.1, rfl⟩

/-! ## Projection lemmas (all definitional) -/

theorem setRange_numPositions (s : FilterState) (a b : Int) :
    (setRange s a b).numPositions = s.numPositions := rfl

theorem setRange_currentSelection (s : FilterState) (a b : Int) :
    (setRange s a b).currentSelection = s.currentSelection := rfl

theorem setRange_rangeMin_of_le (s : FilterState) (a b : Int) (h : a ≤ b) :
    (setRange s a b).rangeMin = a := by
  simp only [setRange, if_neg (not_lt.mpr h)]

theorem setRange_rangeMax_of_le (s : FilterState) (a b : Int) (h : a ≤ b) :
    (setRange s a b).rangeMax = b := by
  simp only [setRange, if_neg (not_lt.mpr h)]

theorem setNumPositions_numPositions (s : FilterState) (n : Nat) :
    (setNumPositions s n).numPositions = (if n = 0 then 1 else n) := rfl

theorem setNumPositions_currentSelection (s : FilterState) (n : Nat) :
    (setNumPositions s n).currentSelection = s.currentSelection := rfl

theorem setDeadzone_deadzoneSize_some (s : FilterState) (q : ℚ) :
    (setDeadzone s (some q)).deadzoneSize
      = (if q < 0 then some (0 : ℚ) else if 1 < q then some (1 : ℚ) else some q) := rfl

theorem setDeadzone_deadzoneSize_none (s : FilterState) :
    (setDeadzone s none).deadzoneSize = none := rfl

theorem setDeadzone_numPositions (s : FilterState) (d : Option ℚ) :
    (setDeadzone s d).numPositions = s.numPositions := rfl

theorem setDeadzone_currentSelection (s : FilterState) (d : Option ℚ) :
    (setDeadzone s d).currentSelection = s.currentSelection := rfl

theorem recalc_rangeMin (s : FilterState) :
    (recalculateWidths s).rangeMin = s.rangeMin := rfl

theorem recalc_rangeMax (s : FilterState) :
    (recalculateWidths s).rangeMax = s.rangeMax := rfl

theorem recalc_numPositions (s : FilterState) :
    (recalculateWidths s).numPositions = s.numPositions := rfl

theorem recalc_deadzoneSize (s : FilterState) :
    (recalculateWidths s).deadzoneSize = s.deadzoneSize := rfl

theorem recalc_configChanged (s : FilterState) :
    (recalculateWidths s).configChanged = false := rfl

theorem recalc_currentSelection (s : FilterState) :
    (recalculateWidths s).currentSelection = s.currentSelection := rfl

theorem selectAt_currentSelection (s : FilterState) (i : Nat) :
    (selectAt s i).currentSelection = i := rfl

theorem selectAt_numPositions (s : FilterState) (i : Nat) :
    (selectAt s i).numPositions = s.numPositions := rfl

/-! ## Construction lemmas -/

theorem setDeadzone_dzLegal (s : FilterState) (q : ℚ) :
    dzLegal ((setDeadzone s (some q)).deadzoneSize) := by
  rw [setDeadzone_deadzoneSize_some]
  split_ifs with hq1 hq2
  · exact ⟨le_refl 0, by norm_num⟩
  · exact ⟨by norm_num, le_refl 1⟩
  · exact ⟨le_of_not_lt hq1, le_of_not_lt hq2⟩

theorem mkFilter_WF (rMin rMax : Int) (numPos : Nat) (q : ℚ)
    (hsort : rMin ≤ rMax) (h1 : -(2147483648 : Int) ≤ rMin)
    (h4 : rMax < 2147483648) (hspan : rMax - rMin < 2147483648)
    (hn : numPos < 2147483648) :
    WF (mkFilter rMin rMax numPos (some q)) ∧
    (mkFilter rMin rMax numPos (some q)).currentSelection = 0 ∧
    (mkFilter rMin rMax numPos (some q)).rangeMin = rMin ∧
    (mkFilter rMin rMax numPos (some q)).rangeMax = rMax ∧
    (mkFilter rMin rMax numPos (some q)).numPositions
      = (if numPos = 0 then 1 else numPos) := by
  set s0 : FilterState :=
    { configChanged := true, rangeMin := 0, rangeMax := 0, numPositions := 0,
      deadzoneSize := some 0, selectorWidth := 0, deadzoneWidth := 0,
      edgeLow := 0, currentSelection := 0, edgeHigh := 0 } with hs0
  set s3 := setDeadzone (setNumPositions (setRange s0 rMin rMax) numPos)
    (some q) with hs3
  have hs3min : s3.rangeMin = rMin := setRange_rangeMin_of_le s0 rMin rMax hsort
  have hs3max : s3.rangeMax = rMax := setRange_rangeMax_of_le s0 rMin rMax hsort
  have hs3n : s3.numPositions = (if numPos = 0 then 1 else numPos) := rfl
  have hs3d : dzLegal s3.deadzoneSize := setDeadzone_dzLegal _ q
  have hs3c : s3.configChanged = true := rfl
  set s1 := recalculateWidths s3 with hs1
  have hv1 : ValidConfig s1 := by
    refine ⟨?_, ?_, ?_, ?_, ?_, ?_, ?_⟩
    · rw [hs1, recalc_rangeMin, hs3min]; exact h1
    · rw [hs1, recalc_rangeMin, recalc_rangeMax, hs3min, hs3max]; exact hsort
    · rw [hs1, recalc_rangeMax, hs3max]; exact h4
    · rw [hs1, recalc_rangeMin, recalc_rangeMax, hs3min, hs3max]; exact hspan
    · rw [hs1, recalc_numPositions, hs3n]; split <;> omega
    · rw [hs1, recalc_numPositions, hs3n]; split <;> omega
    · rw [hs1, recalc_deadzoneSize]; exact hs3d
  have hW1 : WidthsOK s1 := by
    obtain ⟨r1, r2⟩ := recalc_congr s3 s1 (recalc_rangeMin s3) (recalc_rangeMax s3)
      (recalc_numPositions s3) (recalc_deadzoneSize s3)
    exact ⟨r1.symm, r2.symm⟩
  have hn1 : 1 ≤ s1.numPositions := hv1.2.2.2.2.1
  -- the constructor's initial evaluation
  have hgp : mkFilter rMin rMax numPos (some q) = (getPosition s3 rMin).2 := rfl
  have hup : (getPosition s3 rMin).2
      = upScan s1 (clampReading s1 rMin) 0 := by
    rw [getPosition_eq_dirty s3 rMin hs3c]
  have hclamp : clampReading s1 rMin = rMin := by
    simp only [clampReading, hs1, recalc_rangeMin, recalc_rangeMax, hs3min, hs3max]
    split_ifs <;> omega
  have hmatch : upScan s1 (clampReading s1 rMin) 0 = selectAt s1 0 := by
    rw [upScan, upScanFrom_eq_spec, specFullScanFrom_head]
    · omega
    · rw [hclamp]
      have := (clampEdge_bounds s1 (toInt32
        (intToU32 s1.rangeMin + s1.selectorWidth * (0 + 1) +
          s1.deadzoneWidth * (if 0 ≠ s1.numPositions then 0 + 1 else 0)))
        hv1.2.1).1
      calc rMin = s1.rangeMin := by rw [hs1, recalc_rangeMin, hs3min]
        _ ≤ _ := this
  have hfin : mkFilter rMin rMax numPos (some q) = selectAt s1 0 := by
    rw [hgp, hup, hmatch]
  refine ⟨?_, ?_, ?_, ?_, ?_⟩
  · rw [hfin]
    exact selectAt_WF s1 0 hv1 (recalc_configChanged s3) hW1 (by omega)
  · rw [hfin]; rfl
  · rw [hfin]
    show s1.rangeMin = rMin
    rw [hs1, recalc_rangeMin, hs3min]
  · rw [hfin]
    show s1.rangeMax = rMax
    rw [hs1, recalc_rangeMax, hs3max]
  · rw [hfin]
    show s1.numPositions = _
    rw [hs1, recalc_numPositions, hs3n]

/-! ## Final evaluation helpers -/

/-- Relative evaluation, written with propositional branch conditions. -/
theorem calculateSelection_true_eq (s : FilterState) (pos : Int) :
    calculateSelection s pos true
      = (if clampReading s pos > s.edgeHigh then
          upScan s (clampReading s pos) s.currentSelection
        else if clampReading s pos < s.edgeLow then
          downScan s (clampReading s pos) s.currentSelection
        else s) := by
  simp only [calculateSelection, Bool.not_true, Bool.false_or]
  by_cases h1 : clampReading s pos > s.edgeHigh
  · simp [h1]
  · simp [h1]

/-- Every computed edge lies inside the configured range. -/
theorem calculateEdge_mem (s : FilterState) (h : s.rangeMin ≤ s.rangeMax)
    (i : Nat) (dir : Direction) :
    s.rangeMin ≤ calculateEdge s i dir ∧ calculateEdge s i dir ≤ s.rangeMax := by
  cases dir <;> exact clampEdge_bounds s _ h

/-- With a fully collapsed range every edge clamps to the single range point
and no evaluation moves the selection. -/
theorem getPosition_collapsed (s : FilterState) (pos : Int) (hWF : WF s)
    (hmm : s.rangeMin = s.rangeMax) :
    getPosition s pos = (s.currentSelection, s) := by
  obtain ⟨hv, hc, hW, hsel, hel, heh⟩ := hWF
  have hle := hv.2.1
  have hp : clampReading s pos = s.rangeMin := by
    simp only [clampReading]; split_ifs <;> omega
  have hhigh : s.edgeHigh = s.rangeMin := by
    rw [heh]
    have := calculateEdge_mem s hle s.currentSelection Direction.Upper
    omega
  have hlow : s.edgeLow = s.rangeMin := by
    rw [hel]
    have := calculateEdge_mem s hle s.currentSelection Direction.Lower
    omega
  rw [getPosition_eq_clean s pos hc, calculateSelection_true_eq, hp, hhigh, hlow]
  rw [if_neg (by omega), if_neg (by omega)]

/-! ## Claim C1 -/

/-- Claim C1: with range 0–100, 2 positions and deadzone fraction 0.1 (the
constructor takes a float; 13421773/2^27 is the exact value of the IEEE
single nearest to 0.1, and the exact rational 1/10 yields the same widths),
the constructor evaluates at reading 0 and the call sequence
`getPosition 50, 60, 50, 44` then returns 0, 1, 1, 0, in that order. -/
theorem c1_scenario :
    runReadings (mkFilter 0 100 2 (some (mkRat 13421773 134217728)))
        [50, 60, 50, 44] = [0, 1, 1, 0] ∧
    runReadings (mkFilter 0 100 2 (some (mkRat 1 10)))
        [50, 60, 50, 44] = [0, 1, 1, 0] := by
  decide

/-! ## Claim C2 -/

/-- Claim C2 counterexample: with the valid clean configuration range 0–1,
2 positions, deadzone fraction 1/1024 (`totalRange < numPositions`, so the
deadzone budget wraps in unsigned arithmetic and the computed edges invert),
the selection moves from 0 to 1 because reading 1 exceeds `upperEdge(0) = 0`,
yet a subsequent evaluation at exactly `upperEdge(0)` returns 0: the
selection reverts without the reading crossing below `lowerEdge(1) = 1`
being required, contradicting the claim that it still returns `i + 1`.
A second configuration shows the revert even with one unit per position
(`totalRange ≥ numPositions`): range 0–1073741796, 2 positions, deadzone
fraction 1.0.  The deadzone budget 1073741794 rounds up to the float
1073741824, so the deadzone overshoots the budget, the raw first upper edge
wraps negative and clamps to 0, reading 5 moves the selection to 1, and an
evaluation at exactly `upperEdge(0)` reverts it to 0. -/
theorem c2_counterexample :
    ((mkFilter 0 1 2 (some (mkRat 1 1024))).currentSelection = 0 ∧
    WF (mkFilter 0 1 2 (some (mkRat 1 1024))) ∧
    2 ≤ (mkFilter 0 1 2 (some (mkRat 1 1024))).numPositions ∧
    calculateEdge (mkFilter 0 1 2 (some (mkRat 1 1024))) 0 Direction.Upper < 1 ∧
    (getPosition (mkFilter 0 1 2 (some (mkRat 1 1024))) 1).1 = 1 ∧
    WF (getPosition (mkFilter 0 1 2 (some (mkRat 1 1024))) 1).2 ∧
    calculateEdge (getPosition (mkFilter 0 1 2 (some (mkRat 1 1024))) 1).2 0
        Direction.Upper = 0 ∧
    (getPosition (getPosition (mkFilter 0 1 2 (some (mkRat 1 1024))) 1).2 0).1
        = 0) ∧
    ((mkFilter 0 1073741796 2 (some 1)).numPositions
        ≤ totalRange (mkFilter 0 1073741796 2 (some 1)) ∧
    WF (mkFilter 0 1073741796 2 (some 1)) ∧
    (getPosition (mkFilter 0 1073741796 2 (some 1)) 5).1 = 1 ∧
    (getPosition (getPosition (mkFilter 0 1073741796 2 (some 1)) 5).2
        (calculateEdge (getPosition (mkFilter 0 1073741796 2 (some 1)) 5).2 0
          Direction.Upper)).1 = 0) := by
  decide

/-- Claim C2, amended: for every well-formed clean state, (a) if the current
selection is `i + 1` with `i + 1` a valid index, the range offers at least
one unit per position (`numPositions ≤ totalRange`) and the per-gap deadzone
budget is below `2^24` (so the float conversion of the budget is exact and
the rounded deadzone cannot overshoot it), evaluating at exactly
`upperEdge(i)` returns `i + 1` and leaves the state unchanged, and (b) from
any selection at or above `i + 1`, an evaluation can return an index at most
`i` only when its raw reading is strictly below `lowerEdge(i + 1)` (part (b)
holds for every well-formed clean state, with no range or budget
assumption).  Both extra provisos in (a) are forced by the counterexamples:
a narrower range wraps the budget subtraction, and a budget at `2^24` or
above can round up past the budget and invert the edges. -/
theorem c2_hysteresis_amended (s : FilterState) (i : Nat) (hWF : WF s) :
    ((s.currentSelection = i + 1 ∧ i + 1 < s.numPositions ∧
        s.numPositions ≤ totalRange s ∧
        (totalRange s - s.numPositions) / (s.numPositions - 1) < 16777216) →
      getPosition s (calculateEdge s i Direction.Upper) = (i + 1, s)) ∧
    (∀ pos : Int, i + 1 ≤ s.currentSelection → (getPosition s pos).1 ≤ i →
      pos < calculateEdge s (i + 1) Direction.Lower) := by
  obtain ⟨hv, hc, hW, hsel, hel, heh⟩ := hWF
  have hle : s.rangeMin ≤ s.rangeMax := hv.2.1
  constructor
  · rintro ⟨hcur, hi2, hT, h24⟩
    have hUi := calculateEdge_upper_exact s hv hW hT h24 i hi2
    have hLi1 := calculateEdge_lower_exact s hv hW hT h24 (i + 1) hi2
    rw [Nat.add_sub_cancel] at hLi1
    have hmem := calculateEdge_mem s hle i Direction.Upper
    have hclamp : clampReading s (calculateEdge s i Direction.Upper)
        = calculateEdge s i Direction.Upper := by
      simp only [clampReading]; split_ifs <;> omega
    rw [getPosition_eq_clean s _ hc, calculateSelection_true_eq, hclamp]
    have helL : s.edgeLow = calculateEdge s (i + 1) Direction.Lower := by
      rw [hel, hcur]
    have hehU : s.edgeHigh = calculateEdge s (i + 1) Direction.Upper := by
      rw [heh, hcur]
    by_cases hgt : calculateEdge s i Direction.Upper > s.edgeHigh
    · rw [if_pos hgt]
      have hlast : i + 2 = s.numPositions := by
        by_contra hne
        have hi3 : (i + 1) + 1 < s.numPositions := by omega
        have hUi1 := calculateEdge_upper_exact s hv hW hT h24 (i + 1) hi3
        have hmono : calculateEdge s i Direction.Upper
            ≤ calculateEdge s (i + 1) Direction.Upper := by
          rw [hUi, hUi1]
          have m1 : s.selectorWidth * (i + 1) + s.deadzoneWidth * (i + 1)
              ≤ s.selectorWidth * (i + 1 + 1) + s.deadzoneWidth * (i + 1 + 1) :=
            Nat.add_le_add (Nat.mul_le_mul_left _ (by omega))
              (Nat.mul_le_mul_left _ (by omega))
          have : ((s.selectorWidth * (i + 1) + s.deadzoneWidth * (i + 1) : Nat) : Int)
              ≤ ((s.selectorWidth * (i + 1 + 1)
                  + s.deadzoneWidth * (i + 1 + 1) : Nat) : Int) := by exact_mod_cast m1
          omega
        rw [hehU] at hgt
        omega
      rw [hcur, upScan]
      have hrem : s.numPositions - (i + 1) = 1 := by omega
      rw [hrem]
      have hgt2 : calculateEdge s i Direction.Upper
          > calculateEdge s (i + 1) Direction.Upper := by rw [← hehU]; exact hgt
      simp only [upScanFrom, if_pos hgt2]
      rw [hcur]
    · rw [if_neg hgt]
      have hge : ¬ (calculateEdge s i Direction.Upper < s.edgeLow) := by
        rw [helL, hUi, hLi1]
        have m1 : s.selectorWidth * (i + 1) + s.deadzoneWidth * i
            ≤ s.selectorWidth * (i + 1) + s.deadzoneWidth * (i + 1) :=
          Nat.add_le_add_left (Nat.mul_le_mul_left _ (by omega)) _
        have : ((s.selectorWidth * (i + 1) + s.deadzoneWidth * i : Nat) : Int)
            ≤ ((s.selectorWidth * (i + 1) + s.deadzoneWidth * (i + 1) : Nat) : Int) := by
          exact_mod_cast m1
        omega
      rw [if_neg hge, hcur]
  · intro pos hge hres
    by_contra hnot
    push_neg at hnot
    have hLmem := calculateEdge_mem s hle (i + 1) Direction.Lower
    have hclampge : calculateEdge s (i + 1) Direction.Lower ≤ clampReading s pos := by
      simp only [clampReading]; split_ifs <;> omega
    rw [getPosition_eq_clean s pos hc] at hres
    rw [calculateSelection_true_eq] at hres
    by_cases h1 : clampReading s pos > s.edgeHigh
    · rw [if_pos h1] at hres
      rcases upScan_result s (clampReading s pos) s.currentSelection
        with he | ⟨k, hk1, hk2, hke⟩
      · rw [he] at hres; omega
      · rw [hke, selectAt_currentSelection] at hres; omega
    · rw [if_neg h1] at hres
      by_cases h2 : clampReading s pos < s.edgeLow
      · rw [if_pos h2] at hres
        have := downScan_ge s (clampReading s pos) (i + 1) hclampge
          s.currentSelection hge hge
        omega
      · rw [if_neg h2] at hres; omega

/-- Claim C2 witness: in the 0–100, 2-position, 0.1-deadzone configuration,
after moving up to selection 1 at reading 60, evaluating at exactly
`upperEdge(0) = 54` stays at 1, and the one evaluation that does return 0
(reading 44) has its reading strictly below `lowerEdge(1) = 45`. -/
theorem c2_hysteresis_amended_witness :
    getPosition ((getPosition (mkFilter 0 100 2 (some (mkRat 13421773 134217728))) 60).2)
        (calculateEdge ((getPosition (mkFilter 0 100 2
          (some (mkRat 13421773 134217728))) 60).2) 0 Direction.Upper)
      = (1, (getPosition (mkFilter 0 100 2 (some (mkRat 13421773 134217728))) 60).2) ∧
    (44 : Int) < calculateEdge ((getPosition (mkFilter 0 100 2
        (some (mkRat 13421773 134217728))) 60).2) 1 Direction.Lower :=
  ⟨(c2_hysteresis_amended
      ((getPosition (mkFilter 0 100 2 (some (mkRat 13421773 134217728))) 60).2) 0
      (by decide)).1 ⟨by decide, by decide, by decide, by decide⟩,
   (c2_hysteresis_amended
      ((getPosition (mkFilter 0 100 2 (some (mkRat 13421773 134217728))) 60).2) 0
      (by decide)).2 44 (by decide) (by decide)⟩

/-! ## Claim C3 -/

/-- Claim C3 counterexample: with range 0–10, 3 positions, deadzone 1/2
(`selectorWidth = 2`, `deadzoneWidth = 1`), the upper edge at the last index
`i = 2` is 9, but the claimed formula — deadzone factor `i` rather than
`i + 1` at the last index — gives 8: the code compares `i` against
`numPositions`, not against the last index, so the `i` branch is never taken
for an in-range `i`. -/
theorem c3_counterexample :
    calculateEdge (mkFilter 0 10 3 (some (mkRat 1 2))) 2 Direction.Upper = 9 ∧
    clampEdge (mkFilter 0 10 3 (some (mkRat 1 2)))
        ((mkFilter 0 10 3 (some (mkRat 1 2))).rangeMin
          + (((mkFilter 0 10 3 (some (mkRat 1 2))).selectorWidth * (2 + 1)
              + (mkFilter 0 10 3 (some (mkRat 1 2))).deadzoneWidth * 2 : Nat) : Int))
        = 8 ∧
    (9 : Int) ≠ 8 := by
  decide

/-- Claim C3, amended: for every index `i < numPositions` (so in particular at
the last index), the upper edge is `rangeMin + selectorWidth*(i+1) +
deadzoneWidth*(i+1)` — the deadzone factor is `i` only at the unreachable
argument `i = numPositions` — and the lower edge is `rangeMin +
selectorWidth*i + deadzoneWidth*(i-1 if i ≠ 0 else 0)`, both clamped into
`[rangeMin, rangeMax]`, provided the range is `int`-representable and the
unclamped sum fits in a 32-bit `int` (otherwise the `int` conversion wraps
first). -/
theorem c3_edge_formula_amended (s : FilterState) (i : Nat)
    (hmin : -(2147483648 : Int) ≤ s.rangeMin) (hle : s.rangeMin ≤ s.rangeMax)
    (hmax : s.rangeMax < 2147483648) (hi : i < s.numPositions)
    (hfit : s.rangeMin
        + ((s.selectorWidth * (i + 1) + s.deadzoneWidth * (i + 1) : Nat) : Int)
        < 2147483648) :
    calculateEdge s i Direction.Upper
      = clampEdge s (s.rangeMin
          + ((s.selectorWidth * (i + 1) + s.deadzoneWidth * (i + 1) : Nat) : Int)) ∧
    calculateEdge s i Direction.Lower
      = clampEdge s (s.rangeMin
          + ((s.selectorWidth * i + s.deadzoneWidth * (i - 1) : Nat) : Int)) := by
  have hlowfit : s.rangeMin
      + ((s.selectorWidth * i + s.deadzoneWidth * (i - 1) : Nat) : Int)
      < 2147483648 := by
    have m1 : s.selectorWidth * i ≤ s.selectorWidth * (i + 1) :=
      Nat.mul_le_mul_left _ (by omega)
    have m2 : s.deadzoneWidth * (i - 1) ≤ s.deadzoneWidth * (i + 1) :=
      Nat.mul_le_mul_left _ (by omega)
    have : ((s.selectorWidth * i + s.deadzoneWidth * (i - 1) : Nat) : Int)
        ≤ ((s.selectorWidth * (i + 1) + s.deadzoneWidth * (i + 1) : Nat) : Int) := by
      exact_mod_cast Nat.add_le_add m1 m2
    omega
  exact ⟨calculateEdge_upper_clamp s i hmin hle hmax (by omega) hfit,
    calculateEdge_lower_clamp s i hmin hle hmax hlowfit⟩

/-- Claim C3 witness: the amended formulas, instantiated at the last index of
the 0–10, 3-position, deadzone-1/2 configuration. -/
theorem c3_edge_formula_amended_witness :
    calculateEdge (mkFilter 0 10 3 (some (mkRat 1 2))) 2 Direction.Upper
      = clampEdge (mkFilter 0 10 3 (some (mkRat 1 2)))
          ((mkFilter 0 10 3 (some (mkRat 1 2))).rangeMin
            + (((mkFilter 0 10 3 (some (mkRat 1 2))).selectorWidth * (2 + 1)
                + (mkFilter 0 10 3 (some (mkRat 1 2))).deadzoneWidth * (2 + 1) : Nat) : Int)) ∧
    calculateEdge (mkFilter 0 10 3 (some (mkRat 1 2))) 2 Direction.Lower
      = clampEdge (mkFilter 0 10 3 (some (mkRat 1 2)))
          ((mkFilter 0 10 3 (some (mkRat 1 2))).rangeMin
            + (((mkFilter 0 10 3 (some (mkRat 1 2))).selectorWidth * 2
                + (mkFilter 0 10 3 (some (mkRat 1 2))).deadzoneWidth * (2 - 1) : Nat) : Int)) :=
  c3_edge_formula_amended (mkFilter 0 10 3 (some (mkRat 1 2))) 2
    (by decide) (by decide) (by decide) (by decide) (by decide)

/-! ## Claim C4 -/

/-- Claim C4 counterexample, two parts.  (1) With `rangeMin = rangeMax = 0`,
2 positions (`totalRange = 0 < 2 = numPositions`) and deadzone fraction 1/2,
the code's unsigned subtraction wraps: the budget becomes `2^32 - 2`, which
rounds to the float `2^32`, and half of it — `deadzoneWidth = 2147483648` —
is stored, whereas the claimed formula, evaluated in ordinary integer
arithmetic, gives the impossible value −1.  (2) Even with one unit per
position the formula can fail by float rounding alone: with range
0–16777221, 2 positions, deadzone fraction 1.0, the budget 16777219 exceeds
`2^24` and converts to the float 16777220, so the code stores
`deadzoneWidth = 16777220` while the claimed exact formula gives
16777219. -/
theorem c4_counterexample :
    (totalRange (mkFilter 0 0 2 (some (mkRat 1 2)))
        < (mkFilter 0 0 2 (some (mkRat 1 2))).numPositions ∧
    (mkFilter 0 0 2 (some (mkRat 1 2))).deadzoneWidth = 2147483648 ∧
    specDeadzoneWidth (totalRange (mkFilter 0 0 2 (some (mkRat 1 2))) : Int)
        ((mkFilter 0 0 2 (some (mkRat 1 2))).numPositions : Int) (mkRat 1 2) = -1 ∧
    ((mkFilter 0 0 2 (some (mkRat 1 2))).deadzoneWidth : Int) ≠ -1) ∧
    ((mkFilter 0 16777221 2 (some 1)).numPositions
        ≤ totalRange (mkFilter 0 16777221 2 (some 1)) ∧
    (mkFilter 0 16777221 2 (some 1)).deadzoneWidth = 16777220 ∧
    specDeadzoneWidth (totalRange (mkFilter 0 16777221 2 (some 1)) : Int)
        ((mkFilter 0 16777221 2 (some 1)).numPositions : Int) 1 = 16777219 ∧
    ((mkFilter 0 16777221 2 (some 1)).deadzoneWidth : Int) ≠ 16777219) := by
  decide

/-- Claim C4, amended: whenever `totalRange ≥ numPositions` and the per-gap
deadzone budget is below `2^24`, no unsigned subtraction wraps and
(1) `deadzoneWidth` is the truncated double-rounded float product of the
budget `(totalRange - numPositions) / gapCount` with the fraction — which
matches the claim's exact-arithmetic formula whenever the exact product is
an integer (in particular whenever the fraction's denominator divides the
budget), though float rounding of a fractional product can land one unit
above the claimed floor — and (2) `selectorWidth` satisfies the claimed
formula `(totalRange - deadzoneWidth * gapCount) / numPositions` in plain
integer arithmetic over the stored `deadzoneWidth`.  The subtraction
`totalRange - numPositions` is 32-bit unsigned and wraps in the remaining
configurations, and a budget at `2^24` or above is no longer float-exact;
both failure modes are exhibited by the counterexample. -/
theorem c4_widths_amended (s : FilterState) (q : ℚ)
    (hdz : s.deadzoneSize = some q) (h0 : 0 ≤ q) (h1 : q ≤ 1)
    (hn : 1 ≤ s.numPositions) (hn32 : s.numPositions < 4294967296)
    (hT : s.numPositions ≤ totalRange s)
    (h24 : (totalRange s - s.numPositions) / (s.numPositions - 1) < 16777216) :
    (recalculateWidths s).deadzoneWidth
        = floatMulTrunc ((totalRange s - s.numPositions) / (s.numPositions - 1))
            s.deadzoneSize ∧
    (q.den ∣ (totalRange s - s.numPositions) / (s.numPositions - 1) →
      ((recalculateWidths s).deadzoneWidth : Int)
        = specDeadzoneWidth (totalRange s : Int) (s.numPositions : Int) q) ∧
    ((recalculateWidths s).selectorWidth : Int)
        = specSelectorWidth (totalRange s : Int) (s.numPositions : Int)
            ((recalculateWidths s).deadzoneWidth : Int) := by
  obtain ⟨hd, hs⟩ := recalc_widths_eq s q hdz h1 hn hn32 hT h24
  have hnum0 : 0 ≤ q.num := Rat.num_nonneg.mpr h0
  have hden0 : (0 : Int) < (q.den : Int) := by exact_mod_cast q.den_pos
  refine ⟨hd, ?_, ?_⟩
  · intro hdiv
    rw [hd, hdz]
    rw [floatMulTrunc_exact _ _ h24 h0 h1 hdiv]
    simp only [specDeadzoneWidth]
    rcases Nat.eq_or_lt_of_le hn with h | h
    · have hg : ((s.numPositions : Int)) - 1 = 0 := by omega
      rw [if_pos hg]
      have hg2 : s.numPositions - 1 = 0 := by omega
      rw [hg2, Nat.div_zero]
      simp
    · have hg : ¬ ((s.numPositions : Int) - 1 = 0) := by omega
      rw [if_neg hg]
      have htd : ((totalRange s : Int) - s.numPositions).tdiv ((s.numPositions : Int) - 1)
          = (((totalRange s - s.numPositions) / (s.numPositions - 1) : Nat) : Int) := by
        have e1 : (totalRange s : Int) - s.numPositions
            = ((totalRange s - s.numPositions : Nat) : Int) := by omega
        have e2 : ((s.numPositions : Int) - 1) = ((s.numPositions - 1 : Nat) : Int) := by
          omega
        rw [e1, e2, ← Int.ofNat_tdiv]
      rw [htd]
  · rw [hs, ← hd]
    simp only [specSelectorWidth]
    have hbound : (recalculateWidths s).deadzoneWidth * (s.numPositions - 1)
        ≤ totalRange s - s.numPositions :=
      (recalc_widths_bounds s q hdz h1 hn hn32 hT h24).1
    have e0 : (((recalculateWidths s).deadzoneWidth * (s.numPositions - 1) : Nat) : Int)
        = ((recalculateWidths s).deadzoneWidth : Int) * ((s.numPositions : Int) - 1) := by
      rw [Nat.cast_mul, Nat.cast_sub hn]
      norm_num
    have e1 : (totalRange s : Int)
        - ((recalculateWidths s).deadzoneWidth : Int) * ((s.numPositions : Int) - 1)
        = ((totalRange s
            - (recalculateWidths s).deadzoneWidth * (s.numPositions - 1) : Nat) : Int) := by
      rw [Nat.cast_sub (by omega)]
      rw [e0]
    rw [e1, ← Int.ofNat_tdiv]

/-- Claim C4 witness: the amended width formulas at the 0–100, 3-position,
deadzone-1/2 configuration (budget 48, float-exact product,
`deadzoneWidth = 24`, `selectorWidth = 17`). -/
theorem c4_widths_amended_witness :
    ((recalculateWidths (mkFilter 0 100 3 (some (mkRat 1 2)))).deadzoneWidth : Int)
        = specDeadzoneWidth (totalRange (mkFilter 0 100 3 (some (mkRat 1 2))) : Int)
            ((mkFilter 0 100 3 (some (mkRat 1 2))).numPositions : Int) (mkRat 1 2) ∧
    ((recalculateWidths (mkFilter 0 100 3 (some (mkRat 1 2)))).selectorWidth : Int)
        = specSelectorWidth (totalRange (mkFilter 0 100 3 (some (mkRat 1 2))) : Int)
            ((mkFilter 0 100 3 (some (mkRat 1 2))).numPositions : Int)
            ((recalculateWidths (mkFilter 0 100 3 (some (mkRat 1 2)))).deadzoneWidth : Int) :=
  ⟨(c4_widths_amended (mkFilter 0 100 3 (some (mkRat 1 2))) (mkRat 1 2)
      (by decide) (by decide) (by decide) (by decide) (by decide) (by decide)
      (by decide)).2.1 (by decide),
   (c4_widths_amended (mkFilter 0 100 3 (some (mkRat 1 2))) (mkRat 1 2)
      (by decide) (by decide) (by decide) (by decide) (by decide) (by decide)
      (by decide)).2.2⟩

/-! ## Claim C5 -/

/-- Claim C5 counterexample: after reaching selection 2 in the 0–10,
3-position, deadzone-1/2 configuration and then re-running a setter (config
dirty, configuration unchanged), an evaluation at the in-range reading 10 —
which is above every segment's upper edge — returns the old selection 2,
while a freshly constructed filter with the same configuration returns 0 for
the same reading: the next evaluation is not determined by the configuration
and the reading alone. -/
theorem c5_counterexample :
    (setDeadzone ((getPosition (mkFilter 0 10 3 (some (mkRat 1 2))) 8).2)
        (some (mkRat 1 2))).configChanged = true ∧
    (getPosition (setDeadzone ((getPosition (mkFilter 0 10 3 (some (mkRat 1 2))) 8).2)
        (some (mkRat 1 2))) 10).1 = 2 ∧
    (getPosition (mkFilter 0 10 3 (some (mkRat 1 2))) 10).1 = 0 ∧
    (2 : Nat) ≠ 0 := by
  decide

/-- Claim C5, amended: after any setter call (config dirty), the next
evaluation performs a full bottom-up scan on the recomputed widths; its
result equals the spec's full-scan index whenever some segment matches the
clamped reading, and only when no segment matches (possible per claim C10)
does it fall back to the pre-existing `currentSelection` instead of the value
a fresh filter would return. -/
theorem c5_full_scan_amended (s : FilterState) (pos : Int)
    (hd : s.configChanged = true) :
    (∀ j, specFullScan (recalculateWidths s) pos = some j →
      getPosition s pos = (j, selectAt (recalculateWidths s) j)) ∧
    (specFullScan (recalculateWidths s) pos = none →
      getPosition s pos = (s.currentSelection, recalculateWidths s)) := by
  rw [getPosition_eq_dirty s pos hd]
  have hb : upScan (recalculateWidths s) (clampReading (recalculateWidths s) pos) 0
      = (match specFullScan (recalculateWidths s) pos with
         | some k => selectAt (recalculateWidths s) k
         | none => recalculateWidths s) := by
    rw [upScan, Nat.sub_zero, upScanFrom_eq_spec]
    rfl
  constructor
  · intro j hj
    rw [hb, hj]
    rfl
  · intro hnone
    rw [hb, hnone]
    rfl

/-- Claim C5 witness: the dirty filter of the counterexample, evaluated at
reading 7, agrees with the spec's full scan (segment 2). -/
theorem c5_full_scan_amended_witness :
    getPosition (setDeadzone ((getPosition (mkFilter 0 10 3 (some (mkRat 1 2))) 8).2)
        (some (mkRat 1 2))) 7
      = (2, selectAt (recalculateWidths (setDeadzone
          ((getPosition (mkFilter 0 10 3 (some (mkRat 1 2))) 8).2)
          (some (mkRat 1 2)))) 2) :=
  (c5_full_scan_amended (setDeadzone
      ((getPosition (mkFilter 0 10 3 (some (mkRat 1 2))) 8).2)
      (some (mkRat 1 2))) 7 (by decide)).1 2 (by decide)

/-! ## Claim C6 -/

/-- Claim C6 counterexample: the valid configuration range 0–2147483647,
256 positions, deadzone fraction 1.0 has recomputed widths
`selectorWidth = 1`, `deadzoneWidth = 8421503` (all arithmetic float-exact),
and its upper edges are not non-decreasing: the raw upper edge at the last
index, `256 * 8421504 = 2155905024`, no longer fits in a 32-bit `int`,
converts to a negative value and clamps to `rangeMin`, so
`upperEdge(254) = 2147483520 > upperEdge(255) = 0`. -/
theorem c6_counterexample :
    ValidConfig (mkFilter 0 2147483647 256 (some 1)) ∧
    WidthsOK (mkFilter 0 2147483647 256 (some 1)) ∧
    (255 : Nat) < (mkFilter 0 2147483647 256 (some 1)).numPositions ∧
    calculateEdge (mkFilter 0 2147483647 256 (some 1)) 254 Direction.Upper
        = 2147483520 ∧
    calculateEdge (mkFilter 0 2147483647 256 (some 1)) 255 Direction.Upper = 0 ∧
    ¬ calculateEdge (mkFilter 0 2147483647 256 (some 1)) 254 Direction.Upper
        ≤ calculateEdge (mkFilter 0 2147483647 256 (some 1)) 255 Direction.Upper := by
  decide

/-- Claim C6, amended: for every valid configuration whose largest raw edge
value `rangeMin + (selectorWidth + deadzoneWidth) * numPositions` still fits
in a 32-bit int, the claimed chain `lowerEdge(i) ≤ upperEdge(i) ≤
lowerEdge(i+1) + deadzoneWidth` holds and both edge functions are
non-decreasing over `[0, numPositions-1]`; without that bound the conversion
to `int` can wrap at the top indices. -/
theorem c6_edges_amended (s : FilterState) (hv : ValidConfig s) ( _hW : WidthsOK s)
    (hfit : s.rangeMin + ((s.selectorWidth * s.numPositions
        + s.deadzoneWidth * s.numPositions : Nat) : Int) < 2147483648) :
    (∀ i, i + 1 < s.numPositions →
      calculateEdge s i Direction.Lower ≤ calculateEdge s i Direction.Upper ∧
      calculateEdge s i Direction.Upper
        ≤ calculateEdge s (i + 1) Direction.Lower + (s.deadzoneWidth : Int)) ∧
    (∀ i j, i ≤ j → j < s.numPositions →
      calculateEdge s i Direction.Lower ≤ calculateEdge s j Direction.Lower ∧
      calculateEdge s i Direction.Upper ≤ calculateEdge s j Direction.Upper) := by
  obtain ⟨hb1, hb2, hb3, hb4, hb5, hb6, hb7⟩ := hv
  have hfits : ∀ k : Nat, k ≤ s.numPositions →
      s.rangeMin + ((s.selectorWidth * k + s.deadzoneWidth * k : Nat) : Int)
        < 2147483648 := by
    intro k hk
    have m1 : s.selectorWidth * k + s.deadzoneWidth * k
        ≤ s.selectorWidth * s.numPositions + s.deadzoneWidth * s.numPositions :=
      Nat.add_le_add (Nat.mul_le_mul_left _ hk) (Nat.mul_le_mul_left _ hk)
    have : ((s.selectorWidth * k + s.deadzoneWidth * k : Nat) : Int)
        ≤ ((s.selectorWidth * s.numPositions
            + s.deadzoneWidth * s.numPositions : Nat) : Int) := by exact_mod_cast m1
    omega
  have hup : ∀ i : Nat, i < s.numPositions →
      calculateEdge s i Direction.Upper
        = clampEdge s (s.rangeMin
            + ((s.selectorWidth * (i + 1) + s.deadzoneWidth * (i + 1) : Nat) : Int)) := by
    intro i hi
    exact calculateEdge_upper_clamp s i hb1 hb2 hb3 (by omega) (hfits (i + 1) (by omega))
  have hlo : ∀ i : Nat, i < s.numPositions →
      calculateEdge s i Direction.Lower
        = clampEdge s (s.rangeMin
            + ((s.selectorWidth * i + s.deadzoneWidth * (i - 1) : Nat) : Int)) := by
    intro i hi
    apply calculateEdge_lower_clamp s i hb1 hb2 hb3
    have m1 : s.selectorWidth * i + s.deadzoneWidth * (i - 1)
        ≤ s.selectorWidth * i + s.deadzoneWidth * i :=
      Nat.add_le_add_left (Nat.mul_le_mul_left _ (by omega)) _
    have h2 := hfits i (by omega)
    have : ((s.selectorWidth * i + s.deadzoneWidth * (i - 1) : Nat) : Int)
        ≤ ((s.selectorWidth * i + s.deadzoneWidth * i : Nat) : Int) := by exact_mod_cast m1
    omega
  constructor
  · intro i hi
    constructor
    · rw [hup i (by omega), hlo i (by omega)]
      apply clampEdge_mono
      have m1 : s.selectorWidth * i + s.deadzoneWidth * (i - 1)
          ≤ s.selectorWidth * (i + 1) + s.deadzoneWidth * (i + 1) :=
        Nat.add_le_add (Nat.mul_le_mul_left _ (by omega))
          (Nat.mul_le_mul_left _ (by omega))
      have : ((s.selectorWidth * i + s.deadzoneWidth * (i - 1) : Nat) : Int)
          ≤ ((s.selectorWidth * (i + 1) + s.deadzoneWidth * (i + 1) : Nat) : Int) := by
        exact_mod_cast m1
      omega
    · rw [hup i (by omega), hlo (i + 1) (by omega)]
      have hsplit : s.rangeMin
          + ((s.selectorWidth * (i + 1) + s.deadzoneWidth * (i + 1) : Nat) : Int)
          = (s.rangeMin
              + ((s.selectorWidth * (i + 1)
                  + s.deadzoneWidth * ((i + 1) - 1) : Nat) : Int))
            + (s.deadzoneWidth : Int) := by
        push_cast
        ring
      rw [hsplit]
      exact clampEdge_add_le s _ _ (by positivity)
  · intro i j hij hj
    constructor
    · rw [hlo i (by omega), hlo j (by omega)]
      apply clampEdge_mono
      have m1 : s.selectorWidth * i + s.deadzoneWidth * (i - 1)
          ≤ s.selectorWidth * j + s.deadzoneWidth * (j - 1) :=
        Nat.add_le_add (Nat.mul_le_mul_left _ hij)
          (Nat.mul_le_mul_left _ (by omega))
      have : ((s.selectorWidth * i + s.deadzoneWidth * (i - 1) : Nat) : Int)
          ≤ ((s.selectorWidth * j + s.deadzoneWidth * (j - 1) : Nat) : Int) := by
        exact_mod_cast m1
      omega
    · rw [hup i (by omega), hup j (by omega)]
      apply clampEdge_mono
      have m1 : s.selectorWidth * (i + 1) + s.deadzoneWidth * (i + 1)
          ≤ s.selectorWidth * (j + 1) + s.deadzoneWidth * (j + 1) :=
        Nat.add_le_add (Nat.mul_le_mul_left _ (by omega))
          (Nat.mul_le_mul_left _ (by omega))
      have : ((s.selectorWidth * (i + 1) + s.deadzoneWidth * (i + 1) : Nat) : Int)
          ≤ ((s.selectorWidth * (j + 1) + s.deadzoneWidth * (j + 1) : Nat) : Int) := by
        exact_mod_cast m1
      omega

/-- Claim C6 witness: the amended chain and monotonicity, instantiated in the
0–100, 3-position, deadzone-1/2 configuration. -/
theorem c6_edges_amended_witness :
    (calculateEdge (mkFilter 0 100 3 (some (mkRat 1 2))) 0 Direction.Lower
        ≤ calculateEdge (mkFilter 0 100 3 (some (mkRat 1 2))) 0 Direction.Upper ∧
      calculateEdge (mkFilter 0 100 3 (some (mkRat 1 2))) 0 Direction.Upper
        ≤ calculateEdge (mkFilter 0 100 3 (some (mkRat 1 2))) 1 Direction.Lower
          + ((mkFilter 0 100 3 (some (mkRat 1 2))).deadzoneWidth : Int)) ∧
    (calculateEdge (mkFilter 0 100 3 (some (mkRat 1 2))) 0 Direction.Upper
        ≤ calculateEdge (mkFilter 0 100 3 (some (mkRat 1 2))) 2 Direction.Upper) :=
  ⟨(c6_edges_amended (mkFilter 0 100 3 (some (mkRat 1 2))) (by decide) (by decide)
      (by decide)).1 0 (by decide),
   ((c6_edges_amended (mkFilter 0 100 3 (some (mkRat 1 2))) (by decide) (by decide)
      (by decide)).2 0 2 (by decide) (by decide)).2⟩

/-! ## Claim C7 -/

/-- Claim C7 counterexample: `setDeadzone` does not store a value in
`[0, 1]` for every float argument — a NaN argument fails both ordered
comparisons `dz < 0.0` and `dz > 1.0` (the NaN check in the source is
commented out) and is stored unchanged, and NaN is not an ordered value in
`[0, 1]`. -/
theorem c7_counterexample :
    (setDeadzone (mkFilter 0 100 2 (some (mkRat 1 10))) none).deadzoneSize = none ∧
    ¬ dzLegal (setDeadzone (mkFilter 0 100 2 (some (mkRat 1 10)))
        none).deadzoneSize := by
  decide

/-- Claim C7, amended: the three setters are total and never signal an error:
`setRange` always stores ordered bounds and swaps them exactly when
`rMax < rMin`; `setNumPositions 0` stores 1 and any nonzero count is stored
unchanged; `setDeadzone` stores a value in `[0, 1]` for every ordered
(non-NaN) float, while a NaN argument is stored unchanged. -/
theorem c7_setters_amended (s : FilterState) :
    (∀ a b : Int, (setRange s a b).rangeMin ≤ (setRange s a b).rangeMax) ∧
    (∀ a b : Int, b < a →
      (setRange s a b).rangeMin = b ∧ (setRange s a b).rangeMax = a) ∧
    (setNumPositions s 0).numPositions = 1 ∧
    (∀ n : Nat, n ≠ 0 → (setNumPositions s n).numPositions = n) ∧
    (∀ q : ℚ, dzLegal ((setDeadzone s (some q)).deadzoneSize)) ∧
    (setDeadzone s none).deadzoneSize = none := by
  refine ⟨?_, ?_, rfl, ?_, ?_, rfl⟩
  · intro a b
    simp only [setRange]
    split_ifs <;> omega
  · intro a b h
    simp only [setRange, if_pos h]
    exact ⟨trivial, trivial⟩
  · intro n h
    simp only [setNumPositions, if_neg h]
  · intro q
    exact setDeadzone_dzLegal s q

/-- Claim C7 witness: the amended setter behaviours at concrete arguments —
a reversed range is swapped, a nonzero count is kept, and an out-of-range
fraction is clamped into `[0, 1]`. -/
theorem c7_setters_amended_witness :
    (setRange (mkFilter 0 100 2 (some (mkRat 1 10))) 7 3).rangeMin = 3 ∧
    (setRange (mkFilter 0 100 2 (some (mkRat 1 10))) 7 3).rangeMax = 7 ∧
    (setNumPositions (mkFilter 0 100 2 (some (mkRat 1 10))) 5).numPositions = 5 ∧
    dzLegal ((setDeadzone (mkFilter 0 100 2 (some (mkRat 1 10)))
        (some (mkRat 7 2))).deadzoneSize) :=
  ⟨((c7_setters_amended (mkFilter 0 100 2 (some (mkRat 1 10)))).2.1 7 3 (by decide)).1,
   ((c7_setters_amended (mkFilter 0 100 2 (some (mkRat 1 10)))).2.1 7 3 (by decide)).2,
   (c7_setters_amended (mkFilter 0 100 2 (some (mkRat 1 10)))).2.2.2.1 5 (by decide),
   (c7_setters_amended (mkFilter 0 100 2 (some (mkRat 1 10)))).2.2.2.2.1 (mkRat 7 2)⟩

/-! ## Claim C8 -/

/-- Claim C8: a filter constructed with a single position (`numPos ≤ 1`, since
0 is coerced to 1) or with a fully collapsed range returns 0 from every
evaluation, for every sequence of readings.  The bounds keep construction
within defined C behaviour: `int`-representable ordered range whose span and
position count fit in `int`. -/
theorem c8_degenerate (rMin rMax : Int) (numPos : Nat) (q : ℚ)
    (h1 : -(2147483648 : Int) ≤ rMin) (hsort : rMin ≤ rMax)
    (h4 : rMax < 2147483648) (hspan : rMax - rMin < 2147483648)
    (hn : numPos < 2147483648)
    (hdeg : numPos ≤ 1 ∨ rMin = rMax) :
    ∀ readings : List Int,
      runReadings (mkFilter rMin rMax numPos (some q)) readings
        = readings.map (fun _ => 0) := by
  obtain ⟨hWF0, hsel0, hmin0, hmax0, hnum0⟩ :=
    mkFilter_WF rMin rMax numPos q hsort h1 h4 hspan hn
  suffices h : ∀ readings (s : FilterState), WF s → s.currentSelection = 0 →
      s.numPositions = (if numPos = 0 then 1 else numPos) →
      s.rangeMin = rMin → s.rangeMax = rMax →
      runReadings s readings = readings.map (fun _ => 0) from
    fun readings => h readings _ hWF0 hsel0 hnum0 hmin0 hmax0
  intro readings
  induction readings with
  | nil => intro s _ _ _ _ _; rfl
  | cons r rest ih =>
      intro s hWF hsel hnum hmin hmax
      rcases hdeg with hdeg1 | hdeg2
      · obtain ⟨hWF2, hscfg, hval⟩ := getPosition_WF s r hWF
        have hn1 : s.numPositions = 1 := by rw [hnum]; split <;> omega
        have hresn : (getPosition s r).2.numPositions = 1 := by
          rw [hscfg.2.2.2.1, hn1]
        have hres0 : (getPosition s r).2.currentSelection = 0 := by
          have := hWF2.2.2.2.1
          omega
        have hhead : (getPosition s r).1 = 0 := by rw [hval, hres0]
        show (getPosition s r).1 :: runReadings (getPosition s r).2 rest
            = 0 :: rest.map (fun _ => 0)
        rw [hhead]
        congr 1
        exact ih (getPosition s r).2 hWF2 hres0
          (by rw [hscfg.2.2.2.1, hnum]) (by rw [hscfg.2.1, hmin])
          (by rw [hscfg.2.2.1, hmax])
      · have hcol : s.rangeMin = s.rangeMax := by rw [hmin, hmax]; exact hdeg2
        have hstep := getPosition_collapsed s r hWF hcol
        show (getPosition s r).1 :: runReadings (getPosition s r).2 rest
            = 0 :: rest.map (fun _ => 0)
        rw [hstep]
        show s.currentSelection :: runReadings s rest = 0 :: rest.map (fun _ => 0)
        rw [hsel]
        congr 1
        exact ih s hWF hsel hnum hmin hmax

/-- Claim C8 witness: a collapsed-range 9-position filter and a
single-position filter both answer 0 on a batch of readings (below, inside
and above the range). -/
theorem c8_degenerate_witness :
    runReadings (mkFilter 42 42 9 (some (mkRat 1 2))) [0, 100, -5]
        = [0, 100, -5].map (fun _ => 0) ∧
    runReadings (mkFilter 0 100 1 (some (mkRat 1 2))) [0, 55, 100]
        = [0, 55, 100].map (fun _ => 0) :=
  ⟨c8_degenerate 42 42 9 (mkRat 1 2) (by decide) (by decide) (by decide)
      (by decide) (by decide) (Or.inr rfl) [0, 100, -5],
   c8_degenerate 0 100 1 (mkRat 1 2) (by decide) (by decide) (by decide)
      (by decide) (by decide) (Or.inl (by decide)) [0, 55, 100]⟩

/-! ## Claim C9 -/

/-- Claim C9 counterexample: the invariant `currentSelection ≤
numPositions - 1` is not preserved by every public operation — after driving
a 9-position filter to selection 5 and then reconfiguring it to range 0–10
with 3 positions and deadzone 1/2, the state has `currentSelection = 5` with
`numPositions = 3`, and the next `getPosition(10)` (whose full scan matches
no segment) even returns 5. -/
theorem c9_counterexample :
    ((getPosition (mkFilter 0 100 9 (some 0)) 60).2).currentSelection = 5 ∧
    (setDeadzone (setNumPositions
        (setRange ((getPosition (mkFilter 0 100 9 (some 0)) 60).2) 0 10) 3)
        (some (mkRat 1 2))).numPositions = 3 ∧
    (setDeadzone (setNumPositions
        (setRange ((getPosition (mkFilter 0 100 9 (some 0)) 60).2) 0 10) 3)
        (some (mkRat 1 2))).currentSelection = 5 ∧
    (getPosition (setDeadzone (setNumPositions
        (setRange ((getPosition (mkFilter 0 100 9 (some 0)) 60).2) 0 10) 3)
        (some (mkRat 1 2))) 10).1 = 5 := by
  decide

/-- Claim C9, amended: the invariant holds after construction with ordered
in-range bounds; it is preserved by `getPosition` from every state
satisfying it, clean or dirty (an in-range scan match installs its index,
which is below `numPositions`, and a scan with no match keeps the old
selection and never touches `numPositions`), and in particular within the
full well-formedness invariant; and it is preserved by `setRange` and
`setDeadzone`, which touch neither `currentSelection` nor `numPositions`.
`setNumPositions` can shrink `numPositions` below the current selection and
so is the one public operation that can break it. -/
theorem c9_invariant_amended :
    (∀ (rMin rMax : Int) (numPos : Nat) (q : ℚ),
      -(2147483648 : Int) ≤ rMin → rMin ≤ rMax → rMax < 2147483648 →
      rMax - rMin < 2147483648 → numPos < 2147483648 →
      WF (mkFilter rMin rMax numPos (some q)) ∧
      (mkFilter rMin rMax numPos (some q)).currentSelection
        < (mkFilter rMin rMax numPos (some q)).numPositions) ∧
    (∀ (s : FilterState) (pos : Int), s.currentSelection < s.numPositions →
      (getPosition s pos).1 < (getPosition s pos).2.numPositions ∧
      (getPosition s pos).2.currentSelection
        < (getPosition s pos).2.numPositions) ∧
    (∀ (s : FilterState) (pos : Int), WF s →
      WF (getPosition s pos).2 ∧
      (getPosition s pos).1 < (getPosition s pos).2.numPositions) ∧
    (∀ (s : FilterState) (a b : Int), s.currentSelection < s.numPositions →
      (setRange s a b).currentSelection < (setRange s a b).numPositions) ∧
    (∀ (s : FilterState) (d : Option ℚ), s.currentSelection < s.numPositions →
      (setDeadzone s d).currentSelection < (setDeadzone s d).numPositions) := by
  refine ⟨?_, ?_, ?_, ?_, ?_⟩
  · intro rMin rMax numPos q h1 hsort h4 hspan hn
    obtain ⟨hWF, _, _, _, _⟩ := mkFilter_WF rMin rMax numPos q hsort h1 h4 hspan hn
    exact ⟨hWF, hWF.2.2.2.1⟩
  · intro s pos hsel
    have h12 : (getPosition s pos).1 = (getPosition s pos).2.currentSelection := rfl
    have hkey : (getPosition s pos).2.currentSelection
        < (getPosition s pos).2.numPositions := by
      cases hcc : s.configChanged with
      | false =>
          rw [getPosition_eq_clean s pos hcc]
          show (calculateSelection s pos true).currentSelection
              < (calculateSelection s pos true).numPositions
          rcases calculateSelection_result s pos true hsel with he | ⟨k, hk, hke⟩
          · rw [he]; exact hsel
          · rw [hke, selectAt_currentSelection, selectAt_numPositions]; exact hk
      | true =>
          rw [getPosition_eq_dirty s pos hcc]
          show (upScan (recalculateWidths s)
                (clampReading (recalculateWidths s) pos) 0).currentSelection
              < (upScan (recalculateWidths s)
                (clampReading (recalculateWidths s) pos) 0).numPositions
          rcases upScan_result (recalculateWidths s)
              (clampReading (recalculateWidths s) pos) 0
            with he | ⟨k, hk1, hk2, hke⟩
          · rw [he, recalc_currentSelection, recalc_numPositions]; exact hsel
          · rw [hke, selectAt_currentSelection, selectAt_numPositions]
            exact hk2
    exact ⟨h12 ▸ hkey, hkey⟩
  · intro s pos hWF
    obtain ⟨hWF2, _, hval⟩ := getPosition_WF s pos hWF
    exact ⟨hWF2, by rw [hval]; exact hWF2.2.2.2.1⟩
  · intro s a b h
    exact h
  · intro s d h
    exact h

/-- Claim C9 witness: the amended invariant statements at concrete inputs —
a fresh 9-position filter is well-formed with selection 0, an evaluation of
a dirty reconfigured state (after `setDeadzone`) keeps the selection in
range, an evaluation of a well-formed state does too, and
`setRange`/`setDeadzone` preserve the invariant. -/
theorem c9_invariant_amended_witness :
    (WF (mkFilter 0 100 9 (some (mkRat 1 10))) ∧
      (mkFilter 0 100 9 (some (mkRat 1 10))).currentSelection
        < (mkFilter 0 100 9 (some (mkRat 1 10))).numPositions) ∧
    ((getPosition (setDeadzone (mkFilter 0 100 9 (some (mkRat 1 10)))
          (some (mkRat 1 2))) 60).2.currentSelection
        < (getPosition (setDeadzone (mkFilter 0 100 9 (some (mkRat 1 10)))
          (some (mkRat 1 2))) 60).2.numPositions) ∧
    (getPosition (mkFilter 0 100 9 (some (mkRat 1 10))) 60).1
        < (getPosition (mkFilter 0 100 9 (some (mkRat 1 10))) 60).2.numPositions ∧
    (setRange (mkFilter 0 100 9 (some (mkRat 1 10))) 5 50).currentSelection
        < (setRange (mkFilter 0 100 9 (some (mkRat 1 10))) 5 50).numPositions ∧
    (setDeadzone (mkFilter 0 100 9 (some (mkRat 1 10))) none).currentSelection
        < (setDeadzone (mkFilter 0 100 9 (some (mkRat 1 10))) none).numPositions :=
  ⟨(c9_invariant_amended.1 0 100 9 (mkRat 1 10) (by decide) (by decide) (by decide)
      (by decide) (by decide)),
   (c9_invariant_amended.2.1 (setDeadzone (mkFilter 0 100 9 (some (mkRat 1 10)))
      (some (mkRat 1 2))) 60 (by decide)).2,
   (c9_invariant_amended.2.2.1 (mkFilter 0 100 9 (some (mkRat 1 10))) 60 (by decide)).2,
   c9_invariant_amended.2.2.2.1 (mkFilter 0 100 9 (some (mkRat 1 10))) 5 50 (by decide),
   c9_invariant_amended.2.2.2.2 (mkFilter 0 100 9 (some (mkRat 1 10))) none (by decide)⟩

/-! ## Claim C10 -/

/-- Claim C10: in the valid configuration range 0–10, 3 positions, deadzone
fraction 1/2 (`selectorWidth = 2`, `deadzoneWidth = 1`), the in-range reading
10 is strictly greater than every segment's upper edge (3, 6 and 9), and from
any well-formed state of that configuration the evaluation at 10 matches no
segment and returns the previous `currentSelection` with the whole state —
in particular the sticky bounds — unchanged. -/
theorem c10_unmatched_reading (s : FilterState)
    (hmin : s.rangeMin = 0) (hmax : s.rangeMax = 10)
    (hnum : s.numPositions = 3) (hdz : s.deadzoneSize = some (mkRat 1 2))
    (hWF : WF s) :
    (s.rangeMin ≤ 10 ∧ (10 : Int) ≤ s.rangeMax) ∧
    (∀ i, i < s.numPositions → calculateEdge s i Direction.Upper < 10) ∧
    getPosition s 10 = (s.currentSelection, s) := by
  obtain ⟨hv, hc, hW, hsel, hel, heh⟩ := hWF
  have hsc : SameConfig (mkFilter 0 10 3 (some (mkRat 1 2))) s := by
    have hw1 : s.selectorWidth = 2 := by
      rw [hW.1]
      have := (recalc_congr (mkFilter 0 10 3 (some (mkRat 1 2))) s
        (by rw [hmin]; decide) (by rw [hmax]; decide)
        (by rw [hnum]; decide) (by rw [hdz]; decide)).1
      rw [this]
      decide
    have hw2 : s.deadzoneWidth = 1 := by
      rw [hW.2]
      have := (recalc_congr (mkFilter 0 10 3 (some (mkRat 1 2))) s
        (by rw [hmin]; decide) (by rw [hmax]; decide)
        (by rw [hnum]; decide) (by rw [hdz]; decide)).2
      rw [this]
      decide
    exact ⟨by rw [hc]; decide, by rw [hmin]; decide, by rw [hmax]; decide,
      by rw [hnum]; decide, by rw [hdz]; decide, by rw [hw1]; decide,
      by rw [hw2]; decide⟩
  have hedges : ∀ i, i < s.numPositions →
      calculateEdge s i Direction.Upper < 10 := by
    intro i hi
    rw [hnum] at hi
    rw [calculateEdge_congr _ s hsc]
    interval_cases i <;> decide
  refine ⟨⟨by omega, by omega⟩, hedges, ?_⟩
  have hp : clampReading s 10 = 10 := by
    simp only [clampReading]; split_ifs <;> omega
  have hgt : (10 : Int) > s.edgeHigh := by
    rw [heh]; exact hedges s.currentSelection hsel
  rw [getPosition_eq_clean s 10 hc, calculateSelection_true_eq, hp, if_pos hgt]
  have hnomatch : upScan s 10 s.currentSelection = s := by
    rw [upScan, upScanFrom_eq_spec, specFullScanFrom_of_all_gt]
    intro j hj1 hj2
    exact hedges j (by omega)
  rw [hnomatch]

/-- Claim C10 witness: the state that selected segment 2 in that
configuration keeps selection 2 and all its sticky bounds on reading 10. -/
theorem c10_unmatched_reading_witness :
    getPosition ((getPosition (mkFilter 0 10 3 (some (mkRat 1 2))) 8).2) 10
      = (((getPosition (mkFilter 0 10 3 (some (mkRat 1 2))) 8).2).currentSelection,
         (getPosition (mkFilter 0 10 3 (some (mkRat 1 2))) 8).2) :=
  (c10_unmatched_reading ((getPosition (mkFilter 0 10 3 (some (mkRat 1 2))) 8).2)
    (by decide) (by decide) (by decide) (by decide) (by decide)).2.2

end AnalogSelector
